import Mathlib

/-!
Verification development for the fallback game monitor
(`fallback_game_monitor.py`): a shallow embedding of the schedule
extraction, deduplication and reconciliation pipeline, together with
theorems settling the specification claims.

Strings are modelled as `List Char` internally (`String.data`), machine
text positions as `Nat`.  Python regular expressions used by the source
are embedded as patterns of a small backtracking matcher (`Rx`) whose
semantics mirror CPython `re` on the constructs the source uses
(greedy/lazy bounded class repetition, alternation, groups, word
boundaries, end anchor, case-insensitive literals).
-/

namespace FlashBot

set_option maxRecDepth 100000

/-! ## Character helpers -/

/-- Lowercase mapping covering ASCII and the Russian alphabet
(`А..Я → а..я`, `Ё → ё`), mirroring `str.lower` on the alphabets the
source deals with. -/
def lowerRu (c : Char) : Char :=
  if 'A' ≤ c ∧ c ≤ 'Z' then Char.ofNat (c.toNat + 32)
  else if 'А' ≤ c ∧ c ≤ 'Я' then Char.ofNat (c.toNat + 32)
  else if c = 'Ё' then 'ё'
  else c

/-- Python whitespace (`\s` and `str.strip` default) on the characters
that can occur in the monitored pages. -/
def isSpaceCh (c : Char) : Bool :=
  c = ' ' ∨ c = '\t' ∨ c = '\n' ∨ c = '\r' ∨ c.toNat = 11 ∨ c.toNat = 12

def isDigitCh (c : Char) : Bool := '0' ≤ c ∧ c ≤ '9'

def isAsciiLetter (c : Char) : Bool :=
  ('a' ≤ c ∧ c ≤ 'z') ∨ ('A' ≤ c ∧ c ≤ 'Z')

/-- Lowercase Russian letter (the regex class `[а-я]`; note `ё` is outside
the range, exactly as in the Python patterns). -/
def isRuLower (c : Char) : Bool := 'а' ≤ c ∧ c ≤ 'я'

/-- Uppercase Russian letter (`[А-Я]`). -/
def isRuUpper (c : Char) : Bool := 'А' ≤ c ∧ c ≤ 'Я'

/-- The regex class `[А-Яа-я]` as written in the source patterns. -/
def isRuLetter (c : Char) : Bool := isRuLower c ∨ isRuUpper c

/-- Python `\w` on the alphabets in scope: ASCII letters and digits,
underscore, Russian letters including `ё`/`Ё`. -/
def isWordCh (c : Char) : Bool :=
  isAsciiLetter c ∨ isDigitCh c ∨ c = '_' ∨ isRuLetter c ∨ c = 'ё' ∨ c = 'Ё'

/-- Letter or digit over ASCII/Russian, used by the modelled normalizer. -/
def isAlphaNumRu (c : Char) : Bool :=
  isAsciiLetter c ∨ isDigitCh c ∨ isRuLetter c ∨ c = 'ё' ∨ c = 'Ё'

/-! ## List-of-char utilities (Python string operations) -/

/-- Exact prefix test. -/
def beginsWith : List Char → List Char → Bool
  | [], _ => true
  | _ :: _, [] => false
  | a :: as, b :: bs => a = b && beginsWith as bs

/-- Case-insensitive prefix test (via `lowerRu`). -/
def beginsWithCI : List Char → List Char → Bool
  | [], _ => true
  | _ :: _, [] => false
  | a :: as, b :: bs => lowerRu a = lowerRu b && beginsWith as bs

/-- Python substring containment `needle in hay` (empty needle matches). -/
def containsSub (hay needle : List Char) : Bool :=
  match hay with
  | [] => needle.isEmpty
  | _ :: t => beginsWith needle hay || containsSub t needle

/-- Fuel-driven core of `replaceAllL`; the fuel is always at least the
input length plus one, so the exhaustion branch is unreachable. -/
def replaceAllGo (old new : List Char) : Nat → List Char → List Char
  | 0, s => s
  | _ + 1, [] => []
  | fuel + 1, c :: t =>
    if old.isEmpty then c :: replaceAllGo old new fuel t
    else if beginsWith old (c :: t) then
      new ++ replaceAllGo old new fuel ((c :: t).drop old.length)
    else c :: replaceAllGo old new fuel t

/-- Python `str.replace(old, new)`: leftmost, non-overlapping, all
occurrences; the empty pattern is never used by the source and is a
no-op here. -/
def replaceAllL (hay old new : List Char) : List Char :=
  replaceAllGo old new (hay.length + 1) hay

/-- Fuel-driven core of `removeAllCI`. -/
def removeAllGo (old : List Char) : Nat → List Char → List Char
  | 0, s => s
  | _ + 1, [] => []
  | fuel + 1, c :: t =>
    if old.isEmpty then c :: removeAllGo old fuel t
    else if beginsWithCI old (c :: t) then
      removeAllGo old fuel ((c :: t).drop old.length)
    else c :: removeAllGo old fuel t

/-- Case-insensitive removal of all occurrences of `old`
(`re.sub(re.escape(old), '', hay, flags=re.IGNORECASE)`). -/
def removeAllCI (hay old : List Char) : List Char :=
  removeAllGo old (hay.length + 1) hay

/-- Python `str.strip()` on a char list. -/
def stripL (l : List Char) : List Char :=
  ((l.dropWhile isSpaceCh).reverse.dropWhile isSpaceCh).reverse

/-- Python `str.strip(chars)` for an explicit strip set. -/
def stripSetL (set : List Char) (l : List Char) : List Char :=
  ((l.dropWhile (set.contains ·)).reverse.dropWhile (set.contains ·)).reverse

/-- Helper for `collapseWs`: `pend` records a pending whitespace run. -/
def collapseWsGo : Bool → List Char → List Char
  | pend, [] => if pend then [' '] else []
  | pend, c :: cs =>
    if isSpaceCh c then collapseWsGo true cs
    else (if pend then [' ', c] else [c]) ++ collapseWsGo false cs

/-- Python `re.sub(r'\s+', ' ', s)`: every whitespace run becomes a
single space, including leading and trailing runs. -/
def collapseWs (l : List Char) : List Char := collapseWsGo false l

/-- Helper for `splitWsL`: `acc` is the reversed current word. -/
def splitWsGo : List Char → List Char → List (List Char)
  | acc, [] => if acc.isEmpty then [] else [acc.reverse]
  | acc, c :: cs =>
    if isSpaceCh c then
      (if acc.isEmpty then [] else [acc.reverse]) ++ splitWsGo [] cs
    else splitWsGo (c :: acc) cs

/-- Python `str.split()` (whitespace split, no empty parts). -/
def splitWsL (l : List Char) : List (List Char) := splitWsGo [] l

/-- Digits of a nonempty numeric char list as a natural number. -/
def digitsToNat (l : List Char) : Nat :=
  l.foldl (fun acc c => acc * 10 + (c.toNat - '0'.toNat)) 0

/-- All characters are ASCII digits and the list is nonempty. -/
def allDigits (l : List Char) : Bool := !l.isEmpty && l.all isDigitCh

/-- Decimal digit character of a value below ten. -/
def digitChar : Nat → Char
  | 0 => '0'
  | 1 => '1'
  | 2 => '2'
  | 3 => '3'
  | 4 => '4'
  | 5 => '5'
  | 6 => '6'
  | 7 => '7'
  | 8 => '8'
  | _ => '9'

/-- Fuel-driven decimal rendering; fuel `n + 1` always suffices. -/
def natDigitsGo : Nat → Nat → List Char
  | 0, _ => []
  | fuel + 1, n =>
    if n < 10 then [digitChar n]
    else natDigitsGo fuel (n / 10) ++ [digitChar (n % 10)]

/-- Decimal digit list of a natural number (Python `str(n)`). -/
def natDigits (n : Nat) : List Char := natDigitsGo (n + 1) n

/-- Python `str.zfill(2)` for the numeric strings produced by the parser. -/
def zfill2 (l : List Char) : List Char :=
  if l.length ≥ 2 then l else '0' :: l

/-- Two-digit zero-padded rendering of a natural number (`%02d`). -/
def pad2 (n : Nat) : List Char := zfill2 (natDigits n)

/-- Four-digit zero-padded rendering (`%Y` in `strftime`). -/
def pad4 (n : Nat) : List Char :=
  let d := natDigits n
  List.replicate (4 - d.length) '0' ++ d

/-- Lowercase a char list with `lowerRu`. -/
def lowerL (l : List Char) : List Char := l.map lowerRu

/-! ## Calendar dates (`datetime.date`) -/

/-- A calendar date; only validated dates (`mkValidDate`) are compared. -/
structure Date where
  y : Nat
  m : Nat
  d : Nat
deriving DecidableEq, Repr

def isLeap (y : Nat) : Bool := y % 4 = 0 ∧ (y % 100 ≠ 0 ∨ y % 400 = 0)

def daysInMonth (y m : Nat) : Nat :=
  if m = 2 then (if isLeap y then 29 else 28)
  else if m = 4 ∨ m = 6 ∨ m = 9 ∨ m = 11 then 30
  else 31

/-- `datetime.date` comparison (lexicographic on year, month, day). -/
def dateLt (a b : Date) : Bool :=
  a.y < b.y ∨ (a.y = b.y ∧ (a.m < b.m ∨ (a.m = b.m ∧ a.d < b.d)))

def dateLe (a b : Date) : Bool := a = b ∨ dateLt a b

/-- `datetime.date(y, m, d)`: validates ranges exactly as CPython does
(`MINYEAR = 1`, `MAXYEAR = 9999`). -/
def mkValidDate (y m d : Nat) : Option Date :=
  if 1 ≤ y ∧ y ≤ 9999 ∧ 1 ≤ m ∧ m ≤ 12 ∧ 1 ≤ d ∧ d ≤ daysInMonth y m then
    some ⟨y, m, d⟩
  else none

/-- The day before `dt` (for valid dates). -/
def prevDay (dt : Date) : Date :=
  if 2 ≤ dt.d then ⟨dt.y, dt.m, dt.d - 1⟩
  else if 2 ≤ dt.m then ⟨dt.y, dt.m - 1, daysInMonth dt.y (dt.m - 1)⟩
  else ⟨dt.y - 1, 12, 31⟩

/-- `dt - timedelta(days = n)`. -/
def subDays (dt : Date) : Nat → Date
  | 0 => dt
  | n + 1 => subDays (prevDay dt) n

/-- A 1- or 2-digit numeric field (`%d` / `%m` in `strptime`). -/
def digits1or2 (l : List Char) : Bool :=
  (l.length = 1 ∨ l.length = 2) && l.all isDigitCh

/-- `str.split('.')` on a char list (empty parts included). -/
def splitDotGo : List Char → List Char → List (List Char)
  | acc, [] => [acc.reverse]
  | acc, c :: t =>
    if c = '.' then acc.reverse :: splitDotGo [] t else splitDotGo (c :: acc) t

def splitDot (l : List Char) : List (List Char) := splitDotGo [] l

/-- `datetime.strptime(s, '%d.%m.%Y').date()`: 1–2 digit day and month,
exactly four-digit year, full-string match, calendar validation; `none`
models `ValueError`. -/
def parseDateDMY (s : List Char) : Option Date :=
  match splitDot s with
  | [ds, ms, ys] =>
    if digits1or2 ds && digits1or2 ms && (ys.length = 4 && allDigits ys) then
      mkValidDate (digitsToNat ys) (digitsToNat ms) (digitsToNat ds)
    else none
  | _ => none

/-- `game_date.strftime('%d.%m.%Y')`. -/
def formatDateDMY (dt : Date) : List Char :=
  pad2 dt.d ++ '.' :: pad2 dt.m ++ '.' :: pad4 dt.y

/-! ## A small backtracking regex matcher

Patterns of the source are embedded as `Rx` values; the matcher mirrors
CPython `re` semantics (leftmost match, greedy/lazy bounded repetition
over character classes with backtracking, ordered alternation, capture
groups, word boundaries, end anchor).  Literals compare
case-insensitively via `lowerRu`, matching the `re.IGNORECASE` flag used
by every letter-bearing pattern in the source. -/

/-- Captured group spans: `(group index, start, stop)`, latest first. -/
abbrev Caps := List (Nat × Nat × Nat)

inductive Rx where
  /-- empty pattern -/
  | eps
  /-- single character class -/
  | ch (p : Char → Bool)
  /-- literal string, case-insensitive -/
  | str (s : List Char)
  /-- concatenation -/
  | cat (a b : Rx)
  /-- ordered alternation -/
  | alt (a b : Rx)
  /-- class repetition `{lo,hi}` (`hi = none` for unbounded), greedy or lazy -/
  | rep (lo : Nat) (hi : Option Nat) (lazy : Bool) (p : Char → Bool)
  /-- greedy option `?` -/
  | opt (a : Rx)
  /-- capture group `i` -/
  | grp (i : Nat) (a : Rx)
  /-- word boundary `\b` -/
  | bnd
  /-- end anchor `$` -/
  | eos

/-- Length of the maximal run of `p`-characters at the head. -/
def runLen (p : Char → Bool) : List Char → Nat
  | [] => 0
  | c :: cs => if p c then runLen p cs + 1 else 0

/-- Consume `n` characters, tracking absolute position and previous
character (for `\b`). -/
def consumeN : Nat → List Char → Nat → Option Char → List Char × Nat × Option Char
  | 0, s, pos, prev => (s, pos, prev)
  | _ + 1, [], pos, prev => ([], pos, prev)
  | n + 1, c :: cs, pos, _ => consumeN n cs (pos + 1) (some c)

/-- Continuation type of the matcher: remaining input, absolute position,
previous character, captures so far. -/
abbrev MatK := List Char → Nat → Option Char → Caps → Option (Nat × Caps)

/-- Greedy repetition: try `lo + δ` characters first, backing off one at
a time down to `lo`. -/
def repTryG (k : MatK) (s : List Char) (pos : Nat) (prev : Option Char)
    (caps : Caps) (lo : Nat) : Nat → Option (Nat × Caps)
  | 0 =>
    let r := consumeN lo s pos prev
    k r.1 r.2.1 r.2.2 caps
  | d + 1 =>
    let r := consumeN (lo + d + 1) s pos prev
    match k r.1 r.2.1 r.2.2 caps with
    | some res => some res
    | none => repTryG k s pos prev caps lo d

/-- Lazy repetition: try `cur` characters, extending one at a time while
`δ` attempts remain. -/
def repTryL (k : MatK) (s : List Char) (pos : Nat) (prev : Option Char)
    (caps : Caps) : Nat → Nat → Option (Nat × Caps)
  | cur, 0 =>
    let r := consumeN cur s pos prev
    k r.1 r.2.1 r.2.2 caps
  | cur, d + 1 =>
    let r := consumeN cur s pos prev
    match k r.1 r.2.1 r.2.2 caps with
    | some res => some res
    | none => repTryL k s pos prev caps (cur + 1) d

def isWordOpt : Option Char → Bool
  | none => false
  | some c => isWordCh c

/-- `\b`: word-character status changes between the previous character
and the next one. -/
def atBoundary (prev : Option Char) (s : List Char) : Bool :=
  isWordOpt prev != isWordOpt s.head?

/-- Case-insensitive literal matching helper. -/
def matStr (l : List Char) (s : List Char) (pos : Nat) (prev : Option Char)
    (caps : Caps) (k : MatK) : Option (Nat × Caps) :=
  match l, s with
  | [], _ => k s pos prev caps
  | _ :: _, [] => none
  | a :: as, c :: cs =>
    if lowerRu a = lowerRu c then matStr as cs (pos + 1) (some c) caps k else none

/-- The backtracking matcher in continuation-passing style. -/
def mat : Rx → List Char → Nat → Option Char → Caps → MatK → Option (Nat × Caps)
  | .eps, s, pos, prev, caps, k => k s pos prev caps
  | .ch p, s, pos, _, caps, k =>
    match s with
    | [] => none
    | c :: cs => if p c then k cs (pos + 1) (some c) caps else none
  | .str l, s, pos, prev, caps, k => matStr l s pos prev caps k
  | .cat a b, s, pos, prev, caps, k =>
    mat a s pos prev caps (fun s' pos' prev' caps' => mat b s' pos' prev' caps' k)
  | .alt a b, s, pos, prev, caps, k =>
    match mat a s pos prev caps k with
    | some r => some r
    | none => mat b s pos prev caps k
  | .rep lo hi lzy p, s, pos, prev, caps, k =>
    let avail := runLen p s
    let m := match hi with | none => avail | some h => min h avail
    if m < lo then none
    else if lzy then repTryL k s pos prev caps lo (m - lo)
    else repTryG k s pos prev caps lo (m - lo)
  | .opt a, s, pos, prev, caps, k =>
    match mat a s pos prev caps k with
    | some r => some r
    | none => k s pos prev caps
  | .grp i a, s, pos, prev, caps, k =>
    mat a s pos prev caps (fun s' pos' prev' caps' => k s' pos' prev' ((i, pos, pos') :: caps'))
  | .bnd, s, pos, prev, caps, k => if atBoundary prev s then k s pos prev caps else none
  | .eos, s, pos, prev, caps, k => if s.isEmpty then k s pos prev caps else none

/-- A match result: absolute start, absolute end, captured spans. -/
structure MRes where
  ms : Nat
  me : Nat
  caps : Caps
deriving Repr, DecidableEq

/-- `re.search` semantics from position `pos`: leftmost successful start. -/
def searchGo (r : Rx) : List Char → Nat → Option Char → Option MRes
  | s, pos, prev =>
    match mat r s pos prev [] (fun _ pos' _ caps => some (pos', caps)) with
    | some (e, caps) => some ⟨pos, e, caps⟩
    | none =>
      match s with
      | [] => none
      | c :: cs => searchGo r cs (pos + 1) (some c)

/-- `re.search(r, l)`. -/
def rsearch (r : Rx) (l : List Char) : Option MRes := searchGo r l 0 none

/-- `re.finditer` loop; fuel bounds iterations (each iteration advances
at least one position, so `l.length + 2` never runs out). -/
def findAllGo (r : Rx) : Nat → List Char → Nat → Option Char → List MRes
  | 0, _, _, _ => []
  | fuel + 1, s, pos, prev =>
    match searchGo r s pos prev with
    | none => []
    | some m =>
      let nxt := if m.ms < m.me then m.me else m.me + 1
      let st := consumeN (nxt - pos) s pos prev
      m :: findAllGo r fuel st.1 nxt st.2.2

/-- `list(re.finditer(r, l))`. -/
def findAll (r : Rx) (l : List Char) : List MRes :=
  findAllGo r (l.length + 2) l 0 none

/-- Substring by absolute span (`l[b:e]`). -/
def sliceL (l : List Char) (b e : Nat) : List Char := (l.take e).drop b

/-- Group lookup: latest capture of index `i`. -/
def getCap (caps : Caps) (i : Nat) : Option (Nat × Nat) :=
  (caps.find? (fun x => x.1 = i)).map (fun x => (x.2.1, x.2.2))

/-- `match.group(i)` over the original input (empty if unset). -/
def groupStr (full : List Char) (m : MRes) (i : Nat) : List Char :=
  match getCap m.caps i with
  | none => []
  | some (b, e) => sliceL full b e

/-- Replacement template item: literal text or group reference. -/
inductive Tmpl where
  | lit (s : List Char)
  | gref (i : Nat)

/-- Expand a replacement template for one match. -/
def expandTmpl (full : List Char) (m : MRes) : List Tmpl → List Char
  | [] => []
  | .lit s :: rest => s ++ expandTmpl full m rest
  | .gref i :: rest => groupStr full m i ++ expandTmpl full m rest

/-- Stitch replacement results back together (`re.sub` core). -/
def stitchSub (full : List Char) (tmpl : List Tmpl) : Nat → List MRes → List Char
  | cur, [] => full.drop cur
  | cur, m :: rest => sliceL full cur m.ms ++ expandTmpl full m tmpl ++ stitchSub full tmpl m.me rest

/-- `re.sub(r, tmpl, l)`. -/
def subAllL (r : Rx) (tmpl : List Tmpl) (l : List Char) : List Char :=
  stitchSub l tmpl 0 (findAll r l)

/-- Replace every match by a fixed string. -/
def subConst (r : Rx) (repl : List Char) (l : List Char) : List Char :=
  subAllL r [.lit repl] l

/-- Stitch for `re.split` (patterns without groups). -/
def stitchSplit (full : List Char) : Nat → List MRes → List (List Char)
  | cur, [] => [full.drop cur]
  | cur, m :: rest => sliceL full cur m.ms :: stitchSplit full m.me rest

/-- `re.split(r, l)` for the separator patterns of the source (which
contain no capture groups). -/
def splitRxL (r : Rx) (l : List Char) : List (List Char) :=
  stitchSplit l 0 (findAll r l)

/-! ## Pattern combinator shorthands -/

def starG (p : Char → Bool) : Rx := .rep 0 none false p
def starL' (p : Char → Bool) : Rx := .rep 0 none true p
def plusG (p : Char → Bool) : Rx := .rep 1 none false p
def plusL (p : Char → Bool) : Rx := .rep 1 none true p

def catN : List Rx → Rx
  | [] => .eps
  | [r] => r
  | r :: rest => .cat r (catN rest)

def altN : List Rx → Rx
  | [] => .eps
  | [r] => r
  | r :: rest => .alt r (altN rest)

def strA (s : String) : Rx := .str s.data

/-! ## The concrete patterns of `fallback_game_monitor.py` -/

/-- The dash class `[-–—]`. -/
def isDashCh (c : Char) : Bool := c = '-' ∨ c = '–' ∨ c = '—'

/-- `(\d{1,2})\.(\d{1,2})\.(\d{2,4})` — the date pattern of
`_extract_game_info_from_schedule_row` / `_extract_game_info_from_text` /
`_extract_game_info_from_page`. -/
def datePat : Rx :=
  catN [.grp 1 (.rep 1 (some 2) false isDigitCh), .ch (· = '.'),
        .grp 2 (.rep 1 (some 2) false isDigitCh), .ch (· = '.'),
        .grp 3 (.rep 2 (some 4) false isDigitCh)]

/-- `(\d{1,2})[:.](\d{2})` — the time pattern. -/
def timePat : Rx :=
  catN [.grp 1 (.rep 1 (some 2) false isDigitCh),
        .ch (fun c => c = ':' ∨ c = '.'),
        .grp 2 (.rep 2 (some 2) false isDigitCh)]

/-- `\s*[-–—]\s*` — first game separator. -/
def sepDash : Rx := catN [starG isSpaceCh, .ch isDashCh, starG isSpaceCh]

/-- `\s+против\s+` (IGNORECASE). -/
def sepProtiv : Rx := catN [plusG isSpaceCh, strA "против", plusG isSpaceCh]

/-- `\s+vs\s+` (IGNORECASE). -/
def sepVs : Rx := catN [plusG isSpaceCh, strA "vs", plusG isSpaceCh]

/-- `\s+и\s+` (IGNORECASE). -/
def sepI : Rx := catN [plusG isSpaceCh, strA "и", plusG isSpaceCh]

/-- `game_separators` in source order. -/
def gameSeparators : List Rx := [sepDash, sepProtiv, sepVs, sepI]

/-- The class `[А-Яа-я\w\s\-]` of the venue/name patterns. -/
def isNameCh (c : Char) : Bool :=
  isRuLetter c ∨ isWordCh c ∨ isSpaceCh c ∨ c = '-'

/-- The class `[А-Яа-я\w\s\-\.]`. -/
def isNameDotCh (c : Char) : Bool := isNameCh c ∨ c = '.'

/-- The tail `(?:\s|$|начало|в\s*\d|против|vs)` of the MarvelHall venue
pattern. -/
def marvelTail : Rx :=
  altN [.ch isSpaceCh, .eos, strA "начало",
        catN [strA "в", starG isSpaceCh, .ch isDigitCh],
        strA "против", strA "vs"]

/-- `(MarvelHall[^.]*?ул\.?[^.]*?Киевская[^.]*?\d+[а-я]?)(?:\s|$|начало|в\s*\d|против|vs)`
(IGNORECASE). -/
def marvelPat : Rx :=
  .cat (.grp 1 (catN
        [strA "MarvelHall", starL' (· ≠ '.'), strA "ул", .opt (.ch (· = '.')),
         starL' (· ≠ '.'), strA "Киевская", starL' (· ≠ '.'),
         plusG isDigitCh, .opt (.ch isRuLetter)]))
    marvelTail

/-- `(?:пр\.?|пр-т|ул\.?|улица)?` inside the СШОР venue pattern. -/
def streetKindOpt : Rx :=
  .opt (altN [.cat (strA "пр") (.opt (.ch (· = '.'))), strA "пр-т",
              .cat (strA "ул") (.opt (.ch (· = '.'))), strA "улица"])

/-- `(СШОР[^.]*?[А-Яа-я\w\s\-\.]*?(?:пр\.?|пр-т|ул\.?|улица)?[^.]*?\d+[а-я]?)`
(IGNORECASE). -/
def sshorPat : Rx :=
  .grp 1 (catN
    [strA "СШОР", starL' (· ≠ '.'), starL' isNameDotCh, streetKindOpt,
     starL' (· ≠ '.'), plusG isDigitCh, .opt (.ch isRuLetter)])

/-- `(?:Зал|Арена|Стадион|Спорткомплекс|Дворец|Центр)[\s:]+([А-Яа-я\w\s\-]+?)(?:\s|$|,|\.)`
(IGNORECASE). -/
def hallPat1 : Rx :=
  catN [altN [strA "Зал", strA "Арена", strA "Стадион", strA "Спорткомплекс",
              strA "Дворец", strA "Центр"],
        plusG (fun c => isSpaceCh c ∨ c = ':'),
        .grp 1 (plusL isNameCh),
        altN [.ch isSpaceCh, .eos, .ch (· = ','), .ch (· = '.')]]

/-- `([А-Яа-я\w\s\-]+?)(?:\s+Зал|\s+Арена|\s+Стадион)` (IGNORECASE). -/
def hallPat2 : Rx :=
  .cat (.grp 1 (plusL isNameCh))
    (altN [.cat (plusG isSpaceCh) (strA "Зал"),
           .cat (plusG isSpaceCh) (strA "Арена"),
           .cat (plusG isSpaceCh) (strA "Стадион")])

/-- `(MarvelHall)`. -/
def marvelBare : Rx := .grp 1 (strA "MarvelHall")

/-- `(СШОР[^.]*?[А-Яа-я\w\s\-\.]+)` (IGNORECASE). -/
def sshorBare : Rx :=
  .grp 1 (catN [strA "СШОР", starL' (· ≠ '.'), plusG isNameDotCh])

/-- Address cleanup: `ул\.?\s*[А-Яа-я\w\s\-]*\s*\d+[а-я]?` (IGNORECASE). -/
def addrUl : Rx :=
  catN [strA "ул", .opt (.ch (· = '.')), starG isSpaceCh, starG isNameCh,
        starG isSpaceCh, plusG isDigitCh, .opt (.ch isRuLetter)]

/-- `улица\s+[А-Яа-я\w\s\-]*\s*\d+[а-я]?` (IGNORECASE). -/
def addrUlitsa : Rx :=
  catN [strA "улица", plusG isSpaceCh, starG isNameCh, starG isSpaceCh,
        plusG isDigitCh, .opt (.ch isRuLetter)]

/-- `пр\.?\s*[А-Яа-я\w\s\-]*\s*\d+[а-я]?` (IGNORECASE). -/
def addrPr : Rx :=
  catN [strA "пр", .opt (.ch (· = '.')), starG isSpaceCh, starG isNameCh,
        starG isSpaceCh, plusG isDigitCh, .opt (.ch isRuLetter)]

/-- `пр-т\s+[А-Яа-я\w\s\-]*\s*\d+[а-я]?` (IGNORECASE). -/
def addrPrT : Rx :=
  catN [strA "пр-т", plusG isSpaceCh, starG isNameCh, starG isSpaceCh,
        plusG isDigitCh, .opt (.ch isRuLetter)]

/-- `проспект\s+[А-Яа-я\w\s\-]*\s*\d+[а-я]?` (IGNORECASE). -/
def addrProspekt : Rx :=
  catN [strA "проспект", plusG isSpaceCh, starG isNameCh, starG isSpaceCh,
        plusG isDigitCh, .opt (.ch isRuLetter)]

/-- `СШОР\s+[А-Яа-я\w\s\-\.]*\s*(?:пр\.?|пр-т|улица|ул\.?)?\s*[А-Яа-я\w\s\-]*\s*\d+[а-я]?`
(IGNORECASE). -/
def addrSshor : Rx :=
  catN [strA "СШОР", plusG isSpaceCh, starG isNameDotCh, starG isSpaceCh,
        .opt (altN [.cat (strA "пр") (.opt (.ch (· = '.'))), strA "пр-т",
                    strA "улица", .cat (strA "ул") (.opt (.ch (· = '.')))]),
        starG isSpaceCh, starG isNameCh, starG isSpaceCh,
        plusG isDigitCh, .opt (.ch isRuLetter)]

/-- `СШОР\s+[А-Яа-я\w\s\-\.]+` (IGNORECASE). -/
def addrSshorName : Rx := catN [strA "СШОР", plusG isSpaceCh, plusG isNameDotCh]

/-- The `начало_patterns` list (each substituted by a space, IGNORECASE),
in source order. -/
def nachaloPats : List Rx :=
  [catN [.bnd, strA "начало", .bnd],
   catN [strA "начало", starG isSpaceCh, strA "в", starG isSpaceCh, .ch isDigitCh],
   catN [strA "начало", starG isSpaceCh, strA "в"],
   strA "начало", strA "ачало", strA "чало", strA "начал",
   strA "нача", strA "нач", .cat (strA "ач") .bnd]

/-- `\b(против|vs|и|игра|матч|турнир|расписание|игр|соревнование|в|ул\.|ул|улица|зал|арена|стадион|центр|дворец|спорткомплекс|ск|цоп)\b`
(IGNORECASE), alternatives in source order. -/
def serviceWordsPat : Rx :=
  catN [.bnd,
    .grp 1 (altN [strA "против", strA "vs", strA "и", strA "игра", strA "матч",
      strA "турнир", strA "расписание", strA "игр", strA "соревнование",
      strA "в", .cat (strA "ул") (.ch (· = '.')), strA "ул", strA "улица",
      strA "зал", strA "арена", strA "стадион", strA "центр", strA "дворец",
      strA "спорткомплекс", strA "ск", strA "цоп"]),
    .bnd]

/-- `[\.:;,]`. -/
def punctPat : Rx := .ch (fun c => c = '.' ∨ c = ':' ∨ c = ';' ∨ c = ',')

/-- `\s+[а-я]{1,5}\s*$` (IGNORECASE). -/
def shortEndPat : Rx :=
  catN [plusG isSpaceCh, .rep 1 (some 5) false isRuLetter, starG isSpaceCh, .eos]

/-- `\s+[а-я]{1,5}\s+` (IGNORECASE). -/
def shortMidPat : Rx :=
  catN [plusG isSpaceCh, .rep 1 (some 5) false isRuLetter, plusG isSpaceCh]

/-- `([А-Яа-я]+)(ачало|чало|начал|нача|нач|ач)(\s|$)` (IGNORECASE),
substituted by `\1\3`. -/
def gluedNachaloPat : Rx :=
  catN [.grp 1 (plusG isRuLetter),
        .grp 2 (altN [strA "ачало", strA "чало", strA "начал", strA "нача",
                      strA "нач", strA "ач"]),
        .grp 3 (.alt (.ch isSpaceCh) .eos)]

/-- `(ачало|чало|начал|нача|нач|ач)$` (IGNORECASE) — opponent suffix
cleanup. -/
def nachaloSuffixPat : Rx :=
  .cat (.grp 1 (altN [strA "ачало", strA "чало", strA "начал", strA "нача",
                      strA "нач", strA "ач"])) .eos

/-- `\s+(начало|ачало|чало|начал|нача|нач|ач|в\s*\d+[:.]?\d*)\s*$`
(IGNORECASE) — venue tail cleanup. -/
def venueTailPat : Rx :=
  catN [plusG isSpaceCh,
        .grp 1 (altN [strA "начало", strA "ачало", strA "чало", strA "начал",
          strA "нача", strA "нач", strA "ач",
          catN [strA "в", starG isSpaceCh, plusG isDigitCh,
                .opt (.ch (fun c => c = ':' ∨ c = '.')), starG isDigitCh]]),
        starG isSpaceCh, .eos]

/-- `(\d+)([нвк])\s*$` (IGNORECASE), substituted by `\1`. -/
def venueNvkPat : Rx :=
  catN [.grp 1 (plusG isDigitCh),
        .grp 2 (.ch (fun c => lowerRu c = 'н' ∨ lowerRu c = 'в' ∨ lowerRu c = 'к')),
        starG isSpaceCh, .eos]

/-- Calendar free-text pattern of strategy 4:
`(\d{1,2}\.\d{1,2}\.\d{2,4})\s+([^-]+)\s*[-–—]\s*([^-]+)`. -/
def calendarPat : Rx :=
  catN [.grp 1 (catN [.rep 1 (some 2) false isDigitCh, .ch (· = '.'),
                      .rep 1 (some 2) false isDigitCh, .ch (· = '.'),
                      .rep 2 (some 4) false isDigitCh]),
        plusG isSpaceCh, .grp 2 (plusG (· ≠ '-')),
        starG isSpaceCh, .ch isDashCh, starG isSpaceCh,
        .grp 3 (plusG (· ≠ '-'))]

/-- Matrix-table date pattern `(\d{1,2})\.(\d{1,2})\.(\d{4})`. -/
def cellDatePatY : Rx :=
  catN [.grp 1 (.rep 1 (some 2) false isDigitCh), .ch (· = '.'),
        .grp 2 (.rep 1 (some 2) false isDigitCh), .ch (· = '.'),
        .grp 3 (.rep 4 (some 4) false isDigitCh)]

/-- Matrix-table date pattern `(\d{1,2})\.(\d{1,2})(?:\s+[дг])?`. -/
def cellDatePatDG : Rx :=
  catN [.grp 1 (.rep 1 (some 2) false isDigitCh), .ch (· = '.'),
        .grp 2 (.rep 1 (some 2) false isDigitCh),
        .opt (.cat (plusG isSpaceCh) (.ch (fun c => c = 'д' ∨ c = 'г')))]

/-- Matrix-table date pattern `(\d{1,2})\.(\d{1,2})`. -/
def cellDatePatDM : Rx :=
  catN [.grp 1 (.rep 1 (some 2) false isDigitCh), .ch (· = '.'),
        .grp 2 (.rep 1 (some 2) false isDigitCh)]

/-! ## Spec-modelled name normalization

The functions `_normalize_name_for_search`, `_build_name_variants` and
`_find_matching_variant` are delegated to `GameSystemManager`
(`game_system_manager.py`), which is not among the repository sources
available here; they are modelled from the specification. -/

/-- Modelled from the spec: `_normalize_name_for_search` lives in
`game_system_manager`, which is absent from the sources.  Spec §4.1: a
pure function that folds case, strips punctuation that is not
semantically distinguishing and standardizes whitespace.  (The fixed
transliteration/abbreviation table is site-specific and not derivable
from the available sources, so it is modelled as the identity.) -/
def normalizeNameForSearch (s : String) : String :=
  String.mk (stripL (collapseWs (lowerL s.data |>.map
    (fun c => if isAlphaNumRu c then c else ' '))))

/-- Modelled from the spec: `_build_name_variants` lives in
`game_system_manager`, which is absent from the sources.  Spec §4.1
requires the variant set to contain the normalized form of the input
itself; further variants (abbreviations, transliterations, word-order
permutations) are site-specific and not derivable from the available
sources, so the model is the guaranteed core. -/
def buildNameVariants (name : String) : List String :=
  [normalizeNameForSearch name]

/-- Modelled from the spec: `_find_matching_variant` lives in
`game_system_manager`, which is absent from the sources.  Spec §4.2: a
variant matches if it occurs as a substring of the (already normalized)
haystack; the first matching variant in the supplied order is returned. -/
def findMatchingVariant (normalizedText : String) (variants : List String) :
    Option String :=
  variants.find? (fun v => containsSub normalizedText.data v.data)

/-- `bool(find_matching_variant ...)` as used in conditions. -/
def variantMatches (normalizedText : String) (variants : List String) : Bool :=
  (findMatchingVariant normalizedText variants).isSome

/-! ## `_extract_game_info_from_schedule_row` -/

/-- A game record produced by `_extract_game_info_from_schedule_row`
(`team1`/`team2` present only when the team's position was determined). -/
structure GameInfo where
  date : String
  time : String
  opponent : String
  venue : String
  url : String
  team1 : Option String
  team2 : Option String
deriving Repr, DecidableEq

/-- `list(re.finditer(date_pattern, text))`. -/
def dateMatchesOf (text : String) : List MRes := findAll datePat text.data

/-- `date_str = f"{day.zfill(2)}.{month.zfill(2)}.{year}"` with two-digit
years prefixed by `20`. -/
def dateStrOfM (text : String) (m : MRes) : String :=
  let day := groupStr text.data m 1
  let month := groupStr text.data m 2
  let year := groupStr text.data m 3
  let year := if year.length = 2 then '2' :: '0' :: year else year
  String.mk (zfill2 day ++ '.' :: zfill2 month ++ '.' :: year)

/-- The date stage of the parser: first date match, formatted date
string, parsed date — `none` when there is no date pattern, the date
string fails `strptime` (`ValueError`), or the date is today or earlier
(the future-date filter), mirroring lines 1080–1106 of the source. -/
def dateStageOf (text : String) (today : Date) : Option (MRes × String × Date) :=
  match (dateMatchesOf text).head? with
  | none => none
  | some m =>
    let ds := dateStrOfM text m
    match parseDateDMY ds.data with
    | none => none
    | some d => if dateLe d today then none else some (m, ds, d)

/-- Team position determination (lines 1108–1129): split by each game
separator in order; position 1 if a variant matches the first part,
position 2 if one matches the second. -/
def teamPositionGo (text : String) (variants : List String) : List Rx → Option Nat
  | [] => none
  | sep :: rest =>
    let parts := splitRxL sep text.data
    if parts.length ≥ 2 then
      if variantMatches (normalizeNameForSearch (String.mk (parts.headD []))) variants
      then some 1
      else if variantMatches
          (normalizeNameForSearch (String.mk ((parts.drop 1).headD []))) variants
      then some 2
      else teamPositionGo text variants rest
    else teamPositionGo text variants rest

def teamPositionOf (text team : String) : Option Nat :=
  teamPositionGo text (buildNameVariants team) gameSeparators

/-- Validity check of one time candidate: hour in `[8,23]`, minute in
`[0,59]` (lines 1143–1152). -/
def validTime (win : List Char) (m : MRes) : Option (Nat × Nat) :=
  let h := digitsToNat (groupStr win m 1)
  let mi := digitsToNat (groupStr win m 2)
  if 8 ≤ h ∧ h ≤ 23 ∧ mi ≤ 59 then some (h, mi) else none

/-- Time extraction over a window of text after the date: first valid
time pattern wins, default `20:00`. -/
def timeStrOfWindow (win : List Char) : String :=
  match (findAll timePat win).findSome? (validTime win) with
  | some (h, mi) => String.mk (pad2 h ++ ':' :: pad2 mi)
  | none => "20:00"

/-- Time extraction of `_extract_game_info_from_schedule_row` (lines
1131–1154): the window is `text_after_date[:100]`. -/
def timeStrOfM (text : String) (m : MRes) : String :=
  timeStrOfWindow ((text.data.drop m.me).take 100)

/-- Iterating the later venue patterns (lines 1173–1187). -/
def venuePatsGo (l : List Char) : List Rx → String
  | [] => ""
  | p :: rest =>
    match rsearch p l with
    | some m => String.mk (stripL (groupStr l m 1))
    | none => venuePatsGo l rest

/-- Raw venue extraction (lines 1157–1187): MarvelHall pattern first,
then the СШОР pattern (taking the whole match, `group(0)`), then the
generic hall patterns. -/
def venueRawOf (text : String) : String :=
  match rsearch marvelPat text.data with
  | some m => String.mk (stripL (groupStr text.data m 1))
  | none =>
    match rsearch sshorPat text.data with
    | some m => String.mk (stripL (sliceL text.data m.ms m.me))
    | none => venuePatsGo text.data [hallPat1, hallPat2, marvelPat, marvelBare, sshorBare]

/-- The `known_place` literals removed case-insensitively (line 1221). -/
def knownPlaces : List String :=
  ["MarvelHall", "marvel", "hall", "киевская", "СШОР", "сшор", "В.О.",
   "В.О.р-на", "Малый", "пр.", "пр-т"]

/-- The opponent-side text cleanup cascade (lines 1191–1256): remove
team variants, dates, time, venue, addresses, known places, dashes,
`начало` remnants, service words and punctuation, then collapse. -/
def cleanTextOf (text team : String) (dms : List MRes) (timeStr venueRaw : String) :
    List Char :=
  let c := (buildNameVariants team).foldl (fun acc v => removeAllCI acc v.data) text.data
  let c := dms.foldl (fun acc m => replaceAllL acc (sliceL text.data m.ms m.me) [' ']) c
  let c := if timeStr ≠ "20:00" then replaceAllL c timeStr.data [] else c
  let c := subConst timePat [] c
  let c := if venueRaw ≠ "" then removeAllCI c venueRaw.data else c
  let c := subConst addrUl [] c
  let c := subConst addrUlitsa [] c
  let c := subConst addrPr [] c
  let c := subConst addrPrT [] c
  let c := subConst addrProspekt [] c
  let c := subConst addrSshor [] c
  let c := subConst addrSshorName [] c
  let c := knownPlaces.foldl (fun acc p => removeAllCI acc p.data) c
  let c := subConst (.ch isDashCh) [' '] c
  let c := nachaloPats.foldl (fun acc p => subConst p [' '] acc) c
  let c := subConst serviceWordsPat [] c
  let c := subConst punctPat [' '] c
  let c := stripL (collapseWs c)
  let c := subConst shortEndPat [] c
  let c := subConst shortMidPat [' '] c
  let c := subAllL gluedNachaloPat [.gref 1, .gref 3] c
  stripL (collapseWs c)

/-- `excluded_words` (lines 1264–1266). -/
def excludedWords : List (List Char) :=
  ["сшор", "пр", "пр-т", "ул", "улица", "проспект", "малый", "большой",
   "северный", "южный", "восточный", "западный", "в.о.", "р-на", "на", "в",
   "начало", "ачало", "чало", "начал", "нача", "нач", "ач"].map String.data

/-- `re.match(r'^\d+[а-я]?$', w)` as a boolean. -/
def isNumAddr (w : List Char) : Bool :=
  allDigits w ||
  (match w.getLast? with
   | some c => isRuLower c && allDigits w.dropLast
   | none => false)

/-- The strip set `'.,;:()[]{}'` of the word cleanup. -/
def wordStripSet : List Char := ['.', ',', ';', ':', '(', ')', '[', ']', '\x7b', '\x7d']

/-- Significant-word filter (lines 1269–1281). -/
def significantWordsOf (clean : List Char) : List (List Char) :=
  (splitWsL clean).filterMap (fun w =>
    let wc := stripSetL wordStripSet w
    let wl := lowerL wc
    if 2 ≤ wc.length ∧ ¬ allDigits wc ∧ ¬ isNumAddr wl ∧
        ¬ excludedWords.contains wl ∧
        ¬ beginsWith "пр.".data wl ∧ ¬ beginsWith "ул.".data wl
    then some wc else none)

/-- Opponent-part accumulation with its break conditions (lines
1286–1296): stop on a word containing an excluded token as substring or
an address-like word; keep at most four words. -/
def opponentPartsGo : Nat → List (List Char) → List (List Char)
  | _, [] => []
  | cnt, w :: rest =>
    let wl := lowerL w
    if excludedWords.any (fun ex => containsSub wl ex) then []
    else if isNumAddr wl then []
    else if 4 ≤ cnt + 1 then [w]
    else w :: opponentPartsGo (cnt + 1) rest

def opponentPartsOf (sig : List (List Char)) : List (List Char) :=
  opponentPartsGo 0 (sig.take 6)

/-- `' '.join(parts)`. -/
def joinSpace : List (List Char) → List Char
  | [] => []
  | [w] => w
  | w :: rest => w ++ ' ' :: joinSpace rest

/-- The opponent candidate before the final checks (`opponent` at line
1299): `none` when no part survives. -/
def opponentCandidateOf (text team : String) : Option String :=
  match (dateMatchesOf text).head? with
  | none => none
  | some m =>
    let ts := timeStrOfM text m
    let vraw := venueRawOf text
    let clean := cleanTextOf text team (dateMatchesOf text) ts vraw
    let parts := opponentPartsOf (significantWordsOf clean)
    if parts.isEmpty then none else some (String.mk (stripL (joinSpace parts)))

/-- Stop-words rejected as opponents (lines 1306–1307). -/
def opponentStopWords : List (List Char) :=
  ["против", "vs", "и", "игра", "матч", "турнир", "расписание", "игр",
   "соревнование", "цоп", "питер", "начало", "ачало", "чало", "начал",
   "нача", "нач", "ач"].map String.data

/-- The `начало`-suffix cleanup of the opponent candidate (lines
1311–1314): the stripped substitution result replaces the candidate only
when it is non-empty and differs. -/
def opponentSuffixCleaned (o : String) : String :=
  let oc := String.mk (stripL (subConst nachaloSuffixPat [] o.data))
  if oc ≠ "" ∧ oc ≠ o then oc else o

/-- Final opponent computation (lines 1301–1318): length/stop-word
checks and the `начало`-suffix cleanup. -/
def opponentFinalOf (text team : String) : Option String :=
  match opponentCandidateOf text team with
  | none => none
  | some o =>
    if o = "" ∨ o.length < 2 then none
    else if opponentStopWords.contains (lowerL o.data) then none
    else
      let o2 := opponentSuffixCleaned o
      if 50 < o2.length then none else some o2

/-- Venue normalization before the record is built (lines 1320–1327). -/
def venueNormOf (v : String) : String :=
  if v = "" then ""
  else
    let c := stripL (collapseWs v.data)
    let c := subConst venueTailPat [] c
    let c := subAllL venueNvkPat [.gref 1] c
    String.mk (stripL c)

/-- Shallow embedding of `_extract_game_info_from_schedule_row`
(lines 1077–1353); `today` is `get_moscow_time().date()`. -/
def extractGameInfoFromScheduleRow (text team : String) (today : Date) :
    Option GameInfo :=
  match dateStageOf text today with
  | none => none
  | some (m, ds, _) =>
    match opponentFinalOf text team with
    | none => none
    | some opp =>
      let vnorm := venueNormOf (venueRawOf text)
      let pos := teamPositionOf text team
      some { date := ds
             time := timeStrOfM text m
             opponent := opp
             venue := if vnorm = "" then "Не указано" else vnorm
             url := ""
             team1 := if pos = some 1 then some team
                      else if pos = some 2 then some opp else none
             team2 := if pos = some 1 then some opp
                      else if pos = some 2 then some team else none }

/-! ## The anchor-link extraction paths -/

/-- The four-field record returned by `_extract_game_info_from_text` and
`_extract_game_info_from_page` (the caller adds `url`/`team_name` later). -/
structure GameInfo4 where
  date : String
  time : String
  opponent : String
  venue : String
deriving Repr, DecidableEq

/-- Shallow embedding of `_extract_game_info_from_text` (lines
1494–1556): date via `re.search`, time in the 200-character window after
the date, opponent as the first word after removing the team name, dates,
times and dashes; the venue is always the empty string. -/
def extractGameInfoFromText (text team : String) : Option GameInfo4 :=
  match rsearch datePat text.data with
  | none => none
  | some m =>
    let ds := dateStrOfM text m
    let ts := timeStrOfWindow ((text.data.drop m.me).take 200)
    let ot := removeAllCI text.data team.data
    let ot := subConst datePat [] ot
    let ot := subConst timePat [] ot
    let ot := subConst (.ch isDashCh) [' '] ot
    let ot := stripL (collapseWs ot)
    let opp := match splitWsL ot with
      | [] => "Соперник"
      | w :: _ => String.mk w
    some { date := ds, time := ts, opponent := opp, venue := "" }

/-- Opponent search of `_extract_game_info_from_page` (lines 1453–1469):
first separator whose split has a part matching a team variant; the
other side (stripped, truncated to 50) is the opponent. -/
def pageOpponentGo (text : String) (variants : List String) : List Rx → String
  | [] => "Соперник"
  | sep :: rest =>
    let parts := splitRxL sep text.data
    if parts.length ≥ 2 then
      match parts.findIdx? (fun p =>
          variantMatches (normalizeNameForSearch (String.mk p)) variants) with
      | some i =>
        let v := String.mk ((stripL (if i = 0 then (parts.drop 1).headD []
                                     else parts.headD [])).take 50)
        if v ≠ "Соперник" then v else pageOpponentGo text variants rest
      | none => pageOpponentGo text variants rest
    else pageOpponentGo text variants rest

/-- The MarvelHall venue pattern of `_extract_game_info_from_page`
(line 1474, without the stop-word tail). -/
def marvelPatNT : Rx :=
  .grp 1 (catN
    [strA "MarvelHall", starL' (· ≠ '.'), strA "ул", .opt (.ch (· = '.')),
     starL' (· ≠ '.'), strA "Киевская", starL' (· ≠ '.'),
     plusG isDigitCh, .opt (.ch isRuLetter)])

/-- Shallow embedding of the pure part of `_extract_game_info_from_page`
(lines 1387–1489), given the fetched page text; includes the internal
future-date filter. -/
def extractGameInfoFromPageText (text team : String) (today : Date) :
    Option GameInfo4 :=
  match (dateMatchesOf text).head? with
  | none => none
  | some m =>
    let ds := dateStrOfM text m
    match parseDateDMY ds.data with
    | none => none
    | some d =>
      if dateLe d today then none
      else
        let ts := timeStrOfWindow ((text.data.drop m.me).take 200)
        let opp := pageOpponentGo text (buildNameVariants team) gameSeparators
        let venue := venuePatsGo text.data [marvelPatNT, sshorPat, hallPat1]
        some { date := ds, time := ts, opponent := opp, venue := venue }

/-- The future-date filter applied by the anchor-link strategy to every
extracted record before it is appended (lines 507–518 of
`_parse_single_page`): unparseable or non-future dates are dropped. -/
def anchorLinkFilter (gi : GameInfo4) (today : Date) : Option GameInfo4 :=
  match parseDateDMY gi.date.data with
  | none => none
  | some d => if dateLe d today then none else some gi

/-! ## The calendar free-text strategy (strategy 4) -/

/-- The record produced by the calendar free-text strategy. -/
structure CalGame where
  date : String
  time : String
  opponent : String
  venue : String
  team_name : String
  url : String
deriving Repr, DecidableEq

/-- Shallow embedding of the per-match body of the calendar free-text
strategy (lines 552–585): decide membership of the target team, pick the
opponent from the other side, keep only strictly future dates. -/
def calendarRecordOfMatch (dateStr t1 t2 : String) (variants : List String)
    (teamName url : String) (today : Date) : Option CalGame :=
  let t1n := normalizeNameForSearch (String.mk (stripL t1.data))
  let t2n := normalizeNameForSearch (String.mk (stripL t2.data))
  if variantMatches t1n variants ∨ variantMatches t2n variants then
    let opp := if variantMatches t1n variants then String.mk (stripL t2.data)
               else String.mk (stripL t1.data)
    match parseDateDMY dateStr.data with
    | none => none
    | some d =>
      if dateLt today d then
        some { date := dateStr, time := "20:00", opponent := opp,
               venue := "Не указано", team_name := teamName, url := url }
      else none
  else none

/-! ## The tournament-matrix table strategy (`_parse_schedule_table`) -/

/-- Day/month/optional-year extraction from a matrix cell (lines
656–674): the three date patterns are tried in order. -/
def cellDayMonthYearOf (cellText : String) : Option (String × String × Option String) :=
  match rsearch cellDatePatY cellText.data with
  | some m => some (String.mk (groupStr cellText.data m 1),
                    String.mk (groupStr cellText.data m 2),
                    some (String.mk (groupStr cellText.data m 3)))
  | none =>
    match rsearch cellDatePatDG cellText.data with
    | some m => some (String.mk (groupStr cellText.data m 1),
                      String.mk (groupStr cellText.data m 2), none)
    | none =>
      match rsearch cellDatePatDM cellText.data with
      | some m => some (String.mk (groupStr cellText.data m 1),
                        String.mk (groupStr cellText.data m 2), none)
      | none => none

/-- `f"{day}.{month}.{year}"` as fed to `strptime`. -/
def dmyString (d m y : String) : List Char := d.data ++ '.' :: m.data ++ '.' :: y.data

/-- Year inference and date resolution of the matrix strategy (lines
676–703): without an explicit year, first try the current (Moscow) year;
if the result lies more than 30 days in the past, re-resolve to the next
year; `none` models the `ValueError → continue` paths. -/
def cellGameDateOf (cellText : String) (today : Date) : Option Date :=
  match cellDayMonthYearOf cellText with
  | none => none
  | some (d, m, some y) => parseDateDMY (dmyString d m y)
  | some (d, m, none) =>
    match parseDateDMY (dmyString d m (String.mk (natDigits today.y))) with
    | none => none
    | some g0 =>
      if dateLt g0 (subDays today 30) then
        parseDateDMY (dmyString d m (String.mk (natDigits (today.y + 1))))
      else some g0

/-- The future-game filter of the matrix strategy (line 710). -/
def matrixKeep (gameDate today : Date) : Bool := dateLt today gameDate

/-! ## Deduplication, comparison and reconciliation -/

/-- A game dictionary as flowing through `_remove_duplicate_games`,
`_compare_games` and `process_fallback_config`; `none` models an absent
key. -/
structure PyGame where
  date : Option String
  time : Option String
  opponent : Option String
  venue : Option String
  team_name : Option String
  team_a : Option String
  team_b : Option String
  team2 : Option String
deriving Repr, DecidableEq

/-- `game.get(k, '')`. -/
def pyGet (o : Option String) : String := o.getD ""

/-- Python `a or b` on strings (empty is falsy). -/
def pyOrS (a b : String) : String := if a = "" then b else a

/-- Python truthiness of an optional string value. -/
def truthyO : Option String → Bool
  | none => false
  | some s => s ≠ ""

/-- Python `a or b` on optional string values. -/
def pyOrOpt (a b : Option String) : Option String := if truthyO a then a else b

/-- The dedup key of `_remove_duplicate_games` (line 1366):
`(date, normalize(opponent), normalize(team_name))`. -/
def gameKey (g : PyGame) : String × String × String :=
  (pyGet g.date, normalizeNameForSearch (pyGet g.opponent),
   normalizeNameForSearch (pyGet g.team_name))

/-- The accumulator loop of `_remove_duplicate_games`: `seen` is the set
of keys already emitted. -/
def removeDupGo (seen : List (String × String × String)) :
    List PyGame → List PyGame
  | [] => []
  | g :: gs =>
    if gameKey g ∈ seen then removeDupGo seen gs
    else g :: removeDupGo (gameKey g :: seen) gs

/-- Shallow embedding of `_remove_duplicate_games` (lines 1355–1372). -/
def removeDuplicateGames (games : List PyGame) : List PyGame :=
  removeDupGo [] games

/-- Shallow embedding of `_compare_games` (lines 1585–1627): date match
(parsed calendar dates when both parse, raw strings otherwise) and
normalized-opponent overlap. -/
def compareGames (api site : PyGame) : Bool :=
  let apiDate := pyGet api.date
  let apiOpp := pyOrS (pyGet api.team_b) (pyOrS (pyGet api.opponent) (pyGet api.team2))
  let siteDate := pyGet site.date
  let siteOpp := pyOrS (pyGet site.opponent) (pyGet site.team2)
  let datesMatch : Bool :=
    if apiDate ≠ "" ∧ siteDate ≠ "" then
      match parseDateDMY apiDate.data, parseDateDMY siteDate.data with
      | some a, some b => a == b
      | _, _ => apiDate == siteDate
    else apiDate == siteDate
  if !datesMatch then false
  else
    let an := normalizeNameForSearch apiOpp
    let sn := normalizeNameForSearch siteOpp
    if (an ≠ "" ∧ sn ≠ "" ∧
        (containsSub sn.data an.data ∨ containsSub an.data sn.data ∨ an = sn)) ∨
       (an = "" ∧ sn = "")
    then true else false

/-- Provenance tags of reconciled games (`source=` in the sink calls). -/
inductive Provenance where
  | sitePriority
  | siteOnly
  | apiOnly
deriving Repr, DecidableEq

/-- The merged record of a matched pair (lines 1742–1750):
`{**api, **site}` with explicit site-priority fields on top. -/
def mergeGames (api site : PyGame) : PyGame :=
  { date := pyOrOpt site.date api.date
    time := pyOrOpt site.time api.time
    venue := some (if truthyO site.venue then pyGet site.venue
                   else api.venue.getD "Не указано")
    opponent := pyOrOpt site.opponent (pyOrOpt api.team_b api.opponent)
    team_name := pyOrOpt site.team_name (pyOrOpt api.team_a api.team_name)
    team_a := match site.team_a with | some v => some v | none => api.team_a
    team_b := match site.team_b with | some v => some v | none => api.team_b
    team2 := match site.team2 with | some v => some v | none => api.team2 }

/-- Search for the first not-yet-processed API game matching a site game
(lines 1727–1733), scanning in original index order. -/
def findUnprocessed (processed : List Nat) (s : PyGame) :
    List (Nat × PyGame) → Option (Nat × PyGame)
  | [] => none
  | (i, a) :: rest =>
    if i ∈ processed then findUnprocessed processed s rest
    else if compareGames a s then some (i, a)
    else findUnprocessed processed s rest

/-- The both-sources branch of `process_fallback_config` step 3 (lines
1714–1765): greedy first-match reconciliation with a processed-index
set, matched site games merged with site priority, then leftover API
games. -/
def processBothGo (apiIx : List (Nat × PyGame)) :
    List Nat → List PyGame → List (PyGame × Provenance)
  | processed, [] =>
    (apiIx.filter (fun x => decide (x.1 ∉ processed))).map
      (fun x => (x.2, Provenance.apiOnly))
  | processed, s :: ss =>
    match findUnprocessed processed s apiIx with
    | some (i, a) =>
      (mergeGames a s, Provenance.sitePriority) :: processBothGo apiIx (i :: processed) ss
    | none => (s, Provenance.siteOnly) :: processBothGo apiIx processed ss

/-- Step 3 of `process_fallback_config` (lines 1713–1780): reconcile
when both lists are nonempty, otherwise pass each source through with
its provenance. -/
def processFallbackGames (apiGames siteGames : List PyGame) :
    List (PyGame × Provenance) :=
  if apiGames ≠ [] ∧ siteGames ≠ [] then processBothGo apiGames.enum [] siteGames
  else if apiGames ≠ [] then apiGames.map (fun a => (a, Provenance.apiOnly))
  else siteGames.map (fun s => (s, Provenance.siteOnly))

/-! ## Poll-creation cleanup (`_create_poll_if_needed`) -/

/-- The post-hoc opponent cleanup of `_create_poll_if_needed` (lines
1911–1919): if the stripped venue occurs in the stripped opponent, one
`str.replace` pass removes it, followed by whitespace normalization. -/
def cleanOpponentForPoll (opponent venueRaw : String) : String :=
  let oc := stripL opponent.data
  let vc := stripL venueRaw.data
  if vc ≠ [] ∧ containsSub oc vc then
    String.mk (stripL (collapseWs (stripL (replaceAllL oc vc []))))
  else String.mk oc

/-- The venue written into the formatted poll record (line 2075):
`venue_clean or 'Не указано'`. -/
def pollVenue (venueRaw : String) : String :=
  let vc := String.mk (stripL venueRaw.data)
  if vc = "" then "Не указано" else vc

/-- The team1/team2 resolution at poll creation (lines 2040–2064): use
the parsed positions when both are set, otherwise default to
home (our team first). -/
def pollTeams (team1 team2 : Option String) (teamName opponentClean : String) :
    String × String :=
  if truthyO team1 ∧ truthyO team2 then (pyGet team1, pyGet team2)
  else (teamName, opponentClean)

/-! ## Lemmas about deduplication -/

theorem removeDupGo_sublist (seen : List (String × String × String))
    (L : List PyGame) : (removeDupGo seen L).Sublist L := by
  induction L generalizing seen with
  | nil => simp [removeDupGo]
  | cons h t ih =>
    by_cases hk : gameKey h ∈ seen
    · simp only [removeDupGo, if_pos hk]
      exact (ih seen).cons h
    · simp only [removeDupGo, if_neg hk]
      exact (ih _).cons₂ h

theorem mem_removeDupGo {g : PyGame} (seen : List (String × String × String))
    (L : List PyGame) (hmem : g ∈ removeDupGo seen L) :
    gameKey g ∉ seen ∧
      L.find? (fun x => decide (gameKey x = gameKey g)) = some g := by
  induction L generalizing seen with
  | nil => simp [removeDupGo] at hmem
  | cons h t ih =>
    by_cases hk : gameKey h ∈ seen
    · simp only [removeDupGo, if_pos hk] at hmem
      obtain ⟨hnot, hfind⟩ := ih seen hmem
      have hne : gameKey h ≠ gameKey g := fun he => hnot (he ▸ hk)
      refine ⟨hnot, ?_⟩
      rw [List.find?_cons_of_neg _ (by simpa using hne), hfind]
    · simp only [removeDupGo, if_neg hk] at hmem
      rcases List.mem_cons.mp hmem with rfl | hmem'
      · exact ⟨hk, by rw [List.find?_cons_of_pos _ (by simp)]⟩
      · obtain ⟨hnot, hfind⟩ := ih _ hmem'
        have hne : gameKey h ≠ gameKey g := by
          intro he
          exact hnot (by simp [he])
        refine ⟨fun hs => hnot (List.mem_cons_of_mem _ hs), ?_⟩
        rw [List.find?_cons_of_neg _ (by simpa using hne), hfind]

theorem key_mem_removeDupGo {g : PyGame} (seen : List (String × String × String))
    (L : List PyGame) (hmem : g ∈ L) (hk : gameKey g ∉ seen) :
    ∃ g', g' ∈ removeDupGo seen L ∧ gameKey g' = gameKey g := by
  induction L generalizing seen with
  | nil => simp at hmem
  | cons h t ih =>
    rcases List.mem_cons.mp hmem with rfl | hmem'
    · simp only [removeDupGo, if_neg hk]
      exact ⟨g, by simp, rfl⟩
    · by_cases hkh : gameKey h ∈ seen
      · simp only [removeDupGo, if_pos hkh]
        exact ih seen hmem' hk
      · simp only [removeDupGo, if_neg hkh]
        by_cases heq : gameKey g = gameKey h
        · exact ⟨h, by simp, heq.symm⟩
        · obtain ⟨g', hg', hkey⟩ := ih (gameKey h :: seen) hmem'
            (by simp [heq, hk])
          exact ⟨g', by simp [hg'], hkey⟩

theorem pairwise_keys_removeDupGo (seen : List (String × String × String))
    (L : List PyGame) :
    (removeDupGo seen L).Pairwise (fun a b => gameKey a ≠ gameKey b) := by
  induction L generalizing seen with
  | nil => simp [removeDupGo]
  | cons h t ih =>
    by_cases hk : gameKey h ∈ seen
    · simp only [removeDupGo, if_pos hk]
      exact ih seen
    · simp only [removeDupGo, if_neg hk]
      refine List.Pairwise.cons ?_ (ih _)
      intro b hb
      have := (mem_removeDupGo _ _ hb).1
      intro he
      exact this (by simp [he])

theorem removeDupGo_fix (L : List PyGame) (seen : List (String × String × String))
    (hp : L.Pairwise (fun a b => gameKey a ≠ gameKey b))
    (hs : ∀ g ∈ L, gameKey g ∉ seen) : removeDupGo seen L = L := by
  induction L generalizing seen with
  | nil => simp [removeDupGo]
  | cons h t ih =>
    have hk : gameKey h ∉ seen := hs h (by simp)
    simp only [removeDupGo, if_neg hk]
    congr 1
    refine ih _ hp.of_cons ?_
    intro g hg
    simp only [List.mem_cons]
    rintro (he | he)
    · exact (List.pairwise_cons.mp hp).1 g hg he.symm
    · exact hs g (List.mem_cons_of_mem _ hg) he

/-- C6: deduplication keeps exactly the first record per
`(date, normalize(opponent), normalize(team_name))` key, preserves
encounter order (it yields a sublist), has pairwise-distinct keys, loses
no key, and is idempotent.  (As a Lean function the embedding is pure by
construction, matching the no-side-effects part of the claim.) -/
theorem C6_dedupe_first_occurrence_idempotent (L : List PyGame) :
    (removeDuplicateGames L).Sublist L ∧
    removeDuplicateGames (removeDuplicateGames L) = removeDuplicateGames L ∧
    (removeDuplicateGames L).Pairwise (fun a b => gameKey a ≠ gameKey b) ∧
    (∀ g ∈ removeDuplicateGames L,
      L.find? (fun x => decide (gameKey x = gameKey g)) = some g) ∧
    (∀ g ∈ L, ∃ g', g' ∈ removeDuplicateGames L ∧ gameKey g' = gameKey g) := by
  refine ⟨removeDupGo_sublist [] L, ?_, pairwise_keys_removeDupGo [] L, ?_, ?_⟩
  · exact removeDupGo_fix _ [] (pairwise_keys_removeDupGo [] L) (by simp)
  · intro g hg
    exact (mem_removeDupGo [] L hg).2
  · intro g hg
    exact key_mem_removeDupGo [] L hg (by simp)

/-! ## Lemmas about the poll opponent cleanup -/

theorem replaceAllGo_single_filter (c : Char) :
    ∀ (fuel : Nat) (l : List Char), l.length < fuel →
      replaceAllGo [c] [] fuel l = l.filter (· ≠ c) := by
  intro fuel
  induction fuel with
  | zero => intro l h; omega
  | succ n ih =>
    intro l h
    match l with
    | [] => simp [replaceAllGo]
    | x :: t =>
      simp only [List.length_cons] at h
      by_cases hc : c = x
      · subst hc
        simp [replaceAllGo, beginsWith, ih t (by omega)]
      · simp [replaceAllGo, beginsWith, hc, Ne.symm hc, ih t (by omega)]

theorem replaceAllL_single_filter (l : List Char) (c : Char) :
    replaceAllL l [c] [] = l.filter (· ≠ c) :=
  replaceAllGo_single_filter c (l.length + 1) l (by omega)

theorem mem_of_mem_dropWhileL {a : Char} {p : Char → Bool} {l : List Char}
    (h : a ∈ l.dropWhile p) : a ∈ l :=
  (List.dropWhile_sublist p).subset h

theorem mem_of_mem_stripL {a : Char} {l : List Char} (h : a ∈ stripL l) : a ∈ l := by
  unfold stripL at h
  have h1 := List.mem_reverse.mp h
  have h2 := mem_of_mem_dropWhileL h1
  exact mem_of_mem_dropWhileL (List.mem_reverse.mp h2)

theorem mem_collapseWsGo {a : Char} {l : List Char} {pend : Bool}
    (h : a ∈ collapseWsGo pend l) : a ∈ l ∨ a = ' ' := by
  induction l generalizing pend with
  | nil =>
    right
    cases pend <;> simp [collapseWsGo] at h
    exact h
  | cons x t ih =>
    simp only [collapseWsGo] at h
    by_cases hx : isSpaceCh x
    · rw [if_pos hx] at h
      rcases ih h with h' | h'
      · exact Or.inl (List.mem_cons_of_mem _ h')
      · exact Or.inr h'
    · rw [if_neg hx] at h
      rcases List.mem_append.mp h with h' | h'
      · cases pend <;> simp at h'
        · exact Or.inl (by simp [h'])
        · rcases h' with h' | h'
          · exact Or.inr h'
          · exact Or.inl (by simp [h'])
      · rcases ih h' with h'' | h''
        · exact Or.inl (List.mem_cons_of_mem _ h'')
        · exact Or.inr h''

theorem mem_collapseWs {a : Char} {l : List Char} (h : a ∈ collapseWs l) :
    a ∈ l ∨ a = ' ' := mem_collapseWsGo h

theorem containsSub_single (l : List Char) (c : Char) :
    containsSub l [c] = true ↔ c ∈ l := by
  induction l with
  | nil => simp [containsSub]
  | cons x t ih =>
    simp only [containsSub, beginsWith, Bool.or_eq_true, List.mem_cons, ih,
      Bool.and_eq_true, decide_eq_true_eq]
    constructor
    · rintro (⟨h1, _⟩ | h)
      · exact Or.inl h1
      · exact Or.inr h
    · rintro (rfl | h)
      · exact Or.inl ⟨rfl, by simp [beginsWith]⟩
      · exact Or.inr h

theorem dropWhile_headNot {p : Char → Bool} :
    ∀ (l : List Char) {a : Char} {t : List Char},
      l.dropWhile p = a :: t → p a = false
  | [], _, _, h => by simp at h
  | x :: xs, a, t, h => by
    by_cases hx : p x
    · rw [List.dropWhile_cons_of_pos hx] at h
      exact dropWhile_headNot xs h
    · rw [List.dropWhile_cons_of_neg hx] at h
      cases h
      simpa using hx

theorem stripL_single_not_space {v : List Char} {c : Char}
    (h : stripL v = [c]) : isSpaceCh c = false := by
  unfold stripL at h
  have h1 : (v.dropWhile isSpaceCh).reverse.dropWhile isSpaceCh = [c] := by
    have := congrArg List.reverse h
    simpa using this
  exact dropWhile_headNot _ h1

/-- C3 (amended): the post-hoc cleanup in `_create_poll_if_needed` is a
single `str.replace` pass; whenever the stripped venue is a single
character, the cleaned opponent indeed contains no occurrence of it.
(For longer venues one pass can splice remnants of the opponent into a
fresh occurrence, see the counterexample.) -/
theorem C3_cleaned_opponent_single_char_venue (o v : String)
    (h : (stripL v.data).length = 1) :
    containsSub (cleanOpponentForPoll o v).data (stripL v.data) = false := by
  obtain ⟨c, hc⟩ : ∃ c, stripL v.data = [c] := by
    rcases he : stripL v.data with _ | ⟨a, t⟩
    · rw [he] at h
      simp at h
    · rw [he] at h
      simp only [List.length_cons] at h
      have ht : t = [] := List.length_eq_zero.mp (by omega)
      exact ⟨a, by rw [ht]⟩
  rw [hc]
  have hcns : isSpaceCh c = false := stripL_single_not_space hc
  unfold cleanOpponentForPoll
  rw [hc]
  by_cases hcond : ([c] ≠ [] ∧ containsSub (stripL o.data) [c])
  · rw [if_pos hcond]
    rw [Bool.eq_false_iff]
    intro habs
    have hmem := (containsSub_single _ c).mp habs
    have hmem1 := mem_of_mem_stripL hmem
    rcases mem_collapseWs hmem1 with h2 | h2
    · have h3 := mem_of_mem_stripL h2
      rw [replaceAllL_single_filter] at h3
      have := List.of_mem_filter h3
      simp at this
    · rw [h2] at hcns
      simp [isSpaceCh] at hcns
  · rw [if_neg hcond]
    rw [Bool.eq_false_iff]
    intro habs
    exact hcond ⟨by simp, by simpa using habs⟩

/-- C3 witness: a concrete single-character venue where the cleanup
provably leaves no occurrence. -/
theorem C3_cleaned_opponent_single_char_venue_witness :
    (stripL " M ".data).length = 1 ∧
    containsSub (cleanOpponentForPoll "Зенит M x" " M ").data
      (stripL " M ".data) = false :=
  ⟨by decide, C3_cleaned_opponent_single_char_venue "Зенит M x" " M " (by decide)⟩

/-- C3 counterexample: as stated the claim is false — with opponent
`"aabb"` and venue `"ab"` the single replacement pass leaves the cleaned
opponent equal to `"ab"`, which still contains the venue. -/
theorem C3_counterexample_venue_still_contained :
    cleanOpponentForPoll "aabb" "ab" = "ab" ∧
    containsSub (cleanOpponentForPoll "aabb" "ab").data "ab".data = true := by
  constructor <;> decide

/-! ## Same-game comparison (C7) -/

/-- Date agreement as the amended claim states it: raw string equality
when either date is empty or either fails to parse, parsed calendar-date
equality when both parse. -/
def sameCalendarDateAmended (a s : String) : Bool :=
  if a = "" ∨ s = "" then a == s
  else
    match parseDateDMY a.data, parseDateDMY s.data with
    | some x, some y => x == y
    | _, _ => a == s

/-- Opponent overlap as the amended claim states it: both normalized
names non-empty and overlapping (substring either direction or equal),
or both empty. -/
def opponentsOverlapAmended (an sn : String) : Bool :=
  if (an ≠ "" ∧ sn ≠ "" ∧
      (containsSub sn.data an.data ∨ containsSub an.data sn.data ∨ an = sn)) ∨
     (an = "" ∧ sn = "")
  then true else false

/-- The same-game predicate exactly as the original claim words it:
dates compared as parsed dates only, and normalized opponents
overlapping as substrings with no emptiness guard. -/
def compareGamesClaim (api site : PyGame) : Bool :=
  let an := normalizeNameForSearch
    (pyOrS (pyGet api.team_b) (pyOrS (pyGet api.opponent) (pyGet api.team2)))
  let sn := normalizeNameForSearch (pyOrS (pyGet site.opponent) (pyGet site.team2))
  (match parseDateDMY (pyGet api.date).data, parseDateDMY (pyGet site.date).data with
   | some x, some y => x == y
   | _, _ => false) &&
  (if containsSub sn.data an.data ∨ containsSub an.data sn.data ∨ an = sn
   then true else false)

theorem compare_dates_eq (a s : String) :
    (if a ≠ "" ∧ s ≠ "" then
       (match parseDateDMY a.data, parseDateDMY s.data with
        | some x, some y => x == y
        | _, _ => a == s)
     else (a == s : Bool)) = sameCalendarDateAmended a s := by
  unfold sameCalendarDateAmended
  by_cases h1 : a = "" <;> by_cases h2 : s = "" <;> simp [h1, h2]

/-- C7 (amended): `_compare_games` returns true iff the dates agree —
as parsed calendar dates when both parse in `d.m.yyyy` format, as raw
strings otherwise (including both empty) — and the normalized opponents
agree: both non-empty and overlapping (substring either direction or
equality), or both empty. -/
theorem C7_compare_games_amended_iff (api site : PyGame) :
    compareGames api site =
      (sameCalendarDateAmended (pyGet api.date) (pyGet site.date) &&
       opponentsOverlapAmended
         (normalizeNameForSearch
           (pyOrS (pyGet api.team_b) (pyOrS (pyGet api.opponent) (pyGet api.team2))))
         (normalizeNameForSearch (pyOrS (pyGet site.opponent) (pyGet site.team2)))) := by
  unfold compareGames opponentsOverlapAmended
  rw [← compare_dates_eq (pyGet api.date) (pyGet site.date)]
  cases h : (if pyGet api.date ≠ "" ∧ pyGet site.date ≠ "" then
       (match parseDateDMY (pyGet api.date).data, parseDateDMY (pyGet site.date).data with
        | some x, some y => x == y
        | _, _ => pyGet api.date == pyGet site.date)
     else (pyGet api.date == pyGet site.date : Bool)) <;> simp [h]

/-- C7 counterexample: the claim as stated is false — for two games with
the equal non-parseable date string and equal non-empty opponents,
`_compare_games` returns true (string-equality fallback) while the
claim's parsed-dates-only comparison yields false. -/
theorem C7_counterexample_string_date_fallback :
    compareGames
        { date := some "сегодня", time := none, opponent := some "Зенит",
          venue := none, team_name := none, team_a := none, team_b := none,
          team2 := none }
        { date := some "сегодня", time := none, opponent := some "Зенит",
          venue := none, team_name := none, team_a := none, team_b := none,
          team2 := none } = true ∧
    compareGamesClaim
        { date := some "сегодня", time := none, opponent := some "Зенит",
          venue := none, team_name := none, team_a := none, team_b := none,
          team2 := none }
        { date := some "сегодня", time := none, opponent := some "Зенит",
          venue := none, team_name := none, team_a := none, team_b := none,
          team2 := none } = false := by
  constructor <;> decide

/-! ## Reconciliation (C8) -/

/-- First-match extraction over the not-yet-consumed API list, as the
claim words the greedy scan: the matched game is removed, order kept. -/
def extractFirstMatch (s : PyGame) : List PyGame → Option (PyGame × List PyGame)
  | [] => none
  | a :: rest =>
    if compareGames a s then some (a, rest)
    else
      match extractFirstMatch s rest with
      | some (m, rest') => some (m, a :: rest')
      | none => none

/-- Reconciliation as the claim words it: greedy first-match without
backtracking over the remaining API games, merged records tagged
site-priority, unmatched site games site-only, leftover API games
api-only after all site games. -/
def reconcileSpec : List PyGame → List PyGame → List (PyGame × Provenance)
  | apiRem, [] => apiRem.map (fun a => (a, Provenance.apiOnly))
  | apiRem, s :: ss =>
    match extractFirstMatch s apiRem with
    | some (a, rest) => (mergeGames a s, Provenance.sitePriority) :: reconcileSpec rest ss
    | none => (s, Provenance.siteOnly) :: reconcileSpec apiRem ss

/-- The not-yet-consumed API games denoted by an indexed list and a
processed-index set. -/
def remGames (apiIx : List (Nat × PyGame)) (processed : List Nat) : List PyGame :=
  (apiIx.filter (fun x => decide (x.1 ∉ processed))).map Prod.snd

theorem findUnprocessed_mem_fst {processed : List Nat} {s : PyGame}
    {apiIx : List (Nat × PyGame)} {i : Nat} {a : PyGame}
    (h : findUnprocessed processed s apiIx = some (i, a)) :
    i ∈ apiIx.map Prod.fst := by
  induction apiIx with
  | nil => simp [findUnprocessed] at h
  | cons x rest ih =>
    match x with
    | (j, b) =>
      simp only [findUnprocessed] at h
      by_cases hc : j ∈ processed
      · rw [if_pos hc] at h
        exact List.mem_cons_of_mem _ (ih h)
      · rw [if_neg hc] at h
        by_cases hm : compareGames b s
        · rw [if_pos hm] at h
          cases h
          simp
        · rw [if_neg hm] at h
          exact List.mem_cons_of_mem _ (ih h)

theorem remGames_cons_irrelevant {apiIx : List (Nat × PyGame)} {j : Nat}
    {processed : List Nat} (hj : j ∉ apiIx.map Prod.fst) :
    remGames apiIx (j :: processed) = remGames apiIx processed := by
  unfold remGames
  congr 1
  apply List.filter_congr
  intro x hx
  have hxj : x.1 ≠ j := by
    intro he
    exact hj (he ▸ List.mem_map_of_mem Prod.fst hx)
  simp [List.mem_cons, hxj]

theorem remGames_cons_skip {x : Nat × PyGame} {apiIx : List (Nat × PyGame)}
    {processed : List Nat} (hc : x.1 ∈ processed) :
    remGames (x :: apiIx) processed = remGames apiIx processed := by
  simp [remGames, List.filter_cons, hc]

theorem remGames_cons_keep {x : Nat × PyGame} {apiIx : List (Nat × PyGame)}
    {processed : List Nat} (hc : x.1 ∉ processed) :
    remGames (x :: apiIx) processed = x.2 :: remGames apiIx processed := by
  simp [remGames, List.filter_cons, hc]

theorem findUnprocessed_extract_step (s : PyGame) (apiIx : List (Nat × PyGame))
    (processed : List Nat) (hnd : (apiIx.map Prod.fst).Nodup) :
    (findUnprocessed processed s apiIx = none ∧
      extractFirstMatch s (remGames apiIx processed) = none) ∨
    (∃ i a, findUnprocessed processed s apiIx = some (i, a) ∧
      extractFirstMatch s (remGames apiIx processed) =
        some (a, remGames apiIx (i :: processed))) := by
  induction apiIx generalizing processed with
  | nil =>
    left
    simp [findUnprocessed, remGames, extractFirstMatch]
  | cons x rest ih =>
    rw [List.map_cons] at hnd
    obtain ⟨hj, hnd'⟩ := List.nodup_cons.mp hnd
    by_cases hc : x.1 ∈ processed
    · rw [remGames_cons_skip hc]
      have hfind : findUnprocessed processed s (x :: rest) =
          findUnprocessed processed s rest := by
        match x with
        | (j, b) => simp only [findUnprocessed, if_pos hc]
      rcases ih processed hnd' with ⟨h1, h2⟩ | ⟨i, a, h1, h2⟩
      · exact Or.inl ⟨by rw [hfind]; exact h1, h2⟩
      · right
        refine ⟨i, a, by rw [hfind]; exact h1, ?_⟩
        rw [h2, remGames_cons_skip (by simp [List.mem_cons, hc])]
    · rw [remGames_cons_keep hc]
      by_cases hm : compareGames x.2 s
      · right
        refine ⟨x.1, x.2, ?_, ?_⟩
        · match x with
          | (j, b) => simp only [findUnprocessed, if_neg hc, if_pos hm]
        · simp only [extractFirstMatch, if_pos hm]
          rw [remGames_cons_skip (by simp), remGames_cons_irrelevant hj]
      · have hfind : findUnprocessed processed s (x :: rest) =
            findUnprocessed processed s rest := by
          match x with
          | (j, b) => simp only [findUnprocessed, if_neg hc, if_neg hm]
        rcases ih processed hnd' with ⟨h1, h2⟩ | ⟨i, a, h1, h2⟩
        · left
          refine ⟨by rw [hfind]; exact h1, ?_⟩
          simp [extractFirstMatch, hm, h2]
        · right
          refine ⟨i, a, by rw [hfind]; exact h1, ?_⟩
          have hine : x.1 ≠ i := by
            intro he
            exact hj (he ▸ findUnprocessed_mem_fst h1)
          simp only [extractFirstMatch, if_neg hm, h2]
          rw [remGames_cons_keep (by simp [List.mem_cons, hine, hc])]

theorem processBothGo_eq_reconcileSpec (siteGames : List PyGame)
    (apiIx : List (Nat × PyGame)) (processed : List Nat)
    (hnd : (apiIx.map Prod.fst).Nodup) :
    processBothGo apiIx processed siteGames =
      reconcileSpec (remGames apiIx processed) siteGames := by
  induction siteGames generalizing processed with
  | nil =>
    simp only [processBothGo, reconcileSpec, remGames, List.map_map]
    rfl
  | cons s ss ih =>
    rcases findUnprocessed_extract_step s apiIx processed hnd with
      ⟨h1, h2⟩ | ⟨i, a, h1, h2⟩
    · simp [processBothGo, reconcileSpec, h1, h2, ih processed]
    · simp [processBothGo, reconcileSpec, h1, h2, ih (i :: processed)]

/-- C8: the both-sources branch of `process_fallback_config` is exactly
the claim's greedy first-match reconciliation without backtracking
(merged records tagged site-priority in site order, unmatched site games
site-only, never-matched API games api-only at the end); site-sourced
values of the five display fields take precedence in the merged record
whenever non-empty; and the claim's concrete example produces exactly
one merged site-priority record with opponent `"Zenit"`. -/
theorem C8_reconciliation_greedy_site_priority :
    (∀ (apiGames siteGames : List PyGame),
      processBothGo apiGames.enum [] siteGames = reconcileSpec apiGames siteGames) ∧
    (∀ (a s : PyGame),
      (truthyO s.date = true → (mergeGames a s).date = s.date) ∧
      (truthyO s.time = true → (mergeGames a s).time = s.time) ∧
      (truthyO s.venue = true → (mergeGames a s).venue = some (pyGet s.venue)) ∧
      (truthyO s.opponent = true → (mergeGames a s).opponent = s.opponent) ∧
      (truthyO s.team_name = true → (mergeGames a s).team_name = s.team_name)) ∧
    processFallbackGames
        [{ date := some "10.10.2025", time := some "18:00", opponent := some "Zenit-2",
           venue := none, team_name := none, team_a := some "Вымпел",
           team_b := some "Zenit-2", team2 := none }]
        [{ date := some "10.10.2025", time := some "19:00", opponent := some "Zenit",
           venue := some "", team_name := some "Вымпел", team_a := none,
           team_b := none, team2 := none }] =
      [({ date := some "10.10.2025", time := some "19:00", opponent := some "Zenit",
          venue := some "Не указано", team_name := some "Вымпел",
          team_a := some "Вымпел", team_b := some "Zenit-2", team2 := none },
        Provenance.sitePriority)] := by
  refine ⟨?_, ?_, by decide⟩
  · intro apiGames siteGames
    have hnd : (apiGames.enum.map Prod.fst).Nodup := by
      rw [List.enum_map_fst]
      exact List.nodup_range _
    have := processBothGo_eq_reconcileSpec siteGames apiGames.enum [] hnd
    rw [this]
    congr 1
    simp [remGames, List.enum_map_snd]
  · intro a s
    refine ⟨?_, ?_, ?_, ?_, ?_⟩ <;> intro h <;>
      simp [mergeGames, pyOrOpt, h]

/-! ## Decimal rendering and date-string lemmas (for C10) -/

theorem digitsToNat_append (xs : List Char) (c : Char) :
    digitsToNat (xs ++ [c]) = digitsToNat xs * 10 + (c.toNat - '0'.toNat) := by
  unfold digitsToNat
  rw [List.foldl_append]
  rfl

theorem digitChar_val {k : Nat} (h : k < 10) :
    (digitChar k).toNat - '0'.toNat = k := by
  interval_cases k <;> decide

theorem digitChar_isDigit (k : Nat) : isDigitCh (digitChar k) = true := by
  unfold digitChar
  split <;> decide

theorem natDigitsGo_roundtrip :
    ∀ (fuel n : Nat), n < 10 ^ fuel → digitsToNat (natDigitsGo fuel n) = n := by
  intro fuel
  induction fuel with
  | zero =>
    intro n h
    simp only [pow_zero, Nat.lt_one_iff] at h
    subst h
    rfl
  | succ f ih =>
    intro n h
    rw [natDigitsGo]
    by_cases hn : n < 10
    · rw [if_pos hn]
      have hv := digitChar_val hn
      show digitsToNat ([] ++ [digitChar n]) = n
      rw [digitsToNat_append, hv]
      simp [digitsToNat]
    · rw [if_neg hn]
      rw [digitsToNat_append]
      have h10 : n / 10 < 10 ^ f := by
        rw [Nat.div_lt_iff_lt_mul (by norm_num)]
        calc n < 10 ^ (f + 1) := h
          _ = 10 ^ f * 10 := by rw [pow_succ]
      rw [ih (n / 10) h10, digitChar_val (Nat.mod_lt n (by norm_num))]
      omega

theorem natDigits_roundtrip (n : Nat) : digitsToNat (natDigits n) = n :=
  natDigitsGo_roundtrip (n + 1) n
    (lt_of_lt_of_le (Nat.lt_pow_self (by norm_num) n)
      (Nat.pow_le_pow_right (by norm_num) (by omega)))

theorem natDigitsGo_length :
    ∀ (fuel n k : Nat), n < 10 ^ fuel → 10 ^ k ≤ n → n < 10 ^ (k + 1) →
      (natDigitsGo fuel n).length = k + 1 := by
  intro fuel
  induction fuel with
  | zero =>
    intro n k h hk1 _
    have := Nat.pos_pow_of_pos (n := 10) k (by norm_num)
    simp only [pow_zero, Nat.lt_one_iff] at h
    omega
  | succ f ih =>
    intro n k h hk1 hk2
    rw [natDigitsGo]
    by_cases hn : n < 10
    · rw [if_pos hn]
      have hk0 : k = 0 := by
        by_contra hne
        have h1 : 1 ≤ k := by omega
        have : (10 : Nat) ^ 1 ≤ 10 ^ k := Nat.pow_le_pow_right (by norm_num) h1
        simp only [pow_one] at this
        omega
      rw [hk0]
      rfl
    · rw [if_neg hn]
      rw [List.length_append]
      have hk1' : 1 ≤ k := by
        by_contra hne
        have hk0 : k = 0 := by omega
        rw [hk0] at hk2
        simp only [zero_add, pow_one] at hk2
        omega
      have hd1 : 10 ^ (k - 1) ≤ n / 10 := by
        rw [Nat.le_div_iff_mul_le (by norm_num)]
        calc 10 ^ (k - 1) * 10 = 10 ^ (k - 1 + 1) := by rw [pow_succ]
          _ = 10 ^ k := by congr 1; omega
          _ ≤ n := hk1
      have hd2 : n / 10 < 10 ^ (k - 1 + 1) := by
        rw [Nat.div_lt_iff_lt_mul (by norm_num)]
        calc n < 10 ^ (k + 1) := hk2
          _ = 10 ^ (k - 1 + 1) * 10 := by rw [← pow_succ]; congr 1; omega
      have hf : n / 10 < 10 ^ f := by
        rw [Nat.div_lt_iff_lt_mul (by norm_num)]
        calc n < 10 ^ (f + 1) := h
          _ = 10 ^ f * 10 := by rw [pow_succ]
      rw [ih (n / 10) (k - 1) hf hd1 hd2]
      simp only [List.length_singleton]
      omega

theorem natDigits_length_four {n : Nat} (h1 : 1000 ≤ n) (h2 : n ≤ 9999) :
    (natDigits n).length = 4 := by
  have := natDigitsGo_length (n + 1) n 3
    (lt_of_lt_of_le (Nat.lt_pow_self (by norm_num) n)
      (Nat.pow_le_pow_right (by norm_num) (by omega)))
    (by norm_num; omega) (by norm_num; omega)
  simpa using this

theorem mem_natDigitsGo_isDigit :
    ∀ (fuel n : Nat) (c : Char), c ∈ natDigitsGo fuel n → isDigitCh c = true := by
  intro fuel
  induction fuel with
  | zero => intro n c h; simp [natDigitsGo] at h
  | succ f ih =>
    intro n c h
    rw [natDigitsGo] at h
    by_cases hn : n < 10
    · rw [if_pos hn] at h
      simp only [List.mem_singleton] at h
      subst h
      exact digitChar_isDigit n
    · rw [if_neg hn] at h
      rcases List.mem_append.mp h with h' | h'
      · exact ih (n / 10) c h'
      · simp only [List.mem_singleton] at h'
        subst h'
        exact digitChar_isDigit _

theorem natDigits_ne_nil (n : Nat) : natDigits n ≠ [] := by
  unfold natDigits natDigitsGo
  by_cases hn : n < 10
  · simp [hn]
  · simp [hn]

theorem allDigits_natDigits (n : Nat) : allDigits (natDigits n) = true := by
  unfold allDigits
  rw [Bool.and_eq_true]
  constructor
  · simpa [List.isEmpty_iff] using natDigits_ne_nil n
  · rw [List.all_eq_true]
    intro c hc
    exact mem_natDigitsGo_isDigit _ _ c hc

theorem isDigit_ne_dot {c : Char} (h : isDigitCh c = true) : c ≠ '.' := by
  intro he
  subst he
  simp [isDigitCh] at h

theorem natDigits_no_dot {n : Nat} {c : Char} (h : c ∈ natDigits n) : c ≠ '.' :=
  isDigit_ne_dot (mem_natDigitsGo_isDigit _ _ c h)

theorem splitDotGo_no_dot :
    ∀ (a : List Char) (acc l : List Char), (∀ ch ∈ a, ch ≠ '.') →
      splitDotGo acc (a ++ l) = splitDotGo (a.reverse ++ acc) l := by
  intro a
  induction a with
  | nil => intro acc l _; simp
  | cons c t ih =>
    intro acc l ha
    have hc : c ≠ '.' := ha c (by simp)
    rw [List.cons_append, splitDotGo, if_neg hc]
    rw [ih (c :: acc) l (fun ch hch => ha ch (by simp [hch]))]
    simp

theorem splitDot_three (d m y : List Char)
    (hd : ∀ c ∈ d, c ≠ '.') (hm : ∀ c ∈ m, c ≠ '.') (hy : ∀ c ∈ y, c ≠ '.') :
    splitDot (d ++ '.' :: (m ++ '.' :: y)) = [d, m, y] := by
  unfold splitDot
  rw [splitDotGo_no_dot d [] _ hd]
  rw [splitDotGo]
  simp only [if_pos rfl, List.append_nil, List.reverse_reverse]
  rw [splitDotGo_no_dot m [] _ hm]
  rw [splitDotGo]
  simp only [if_pos rfl, List.append_nil, List.reverse_reverse]
  have : y = y ++ [] := by simp
  rw [this, splitDotGo_no_dot y [] [] hy]
  simp [splitDotGo]

theorem parseDateDMY_parts (d m y : List Char)
    (hd : ∀ c ∈ d, c ≠ '.') (hm : ∀ c ∈ m, c ≠ '.') (hy : ∀ c ∈ y, c ≠ '.') :
    parseDateDMY (d ++ '.' :: (m ++ '.' :: y)) =
      if digits1or2 d && digits1or2 m && (y.length = 4 && allDigits y) then
        mkValidDate (digitsToNat y) (digitsToNat m) (digitsToNat d)
      else none := by
  unfold parseDateDMY
  rw [splitDot_three d m y hd hm hy]

/-! ## Date-order helper lemmas -/

theorem dateLt_irrefl (a : Date) : dateLt a a = false := by
  simp [dateLt]

theorem dateLe_lt_false {a b : Date} (h : dateLe a b = true) :
    dateLt b a = false := by
  unfold dateLe at h
  rw [decide_eq_true_eq] at h
  rcases h with rfl | h
  · exact dateLt_irrefl a
  · unfold dateLt at h ⊢
    rw [decide_eq_true_eq] at h
    rw [decide_eq_false_iff_not]
    omega

theorem splitDotGo_length :
    ∀ (l acc : List Char), (splitDotGo acc l).length = l.count '.' + 1 := by
  intro l
  induction l with
  | nil => intro acc; simp [splitDotGo]
  | cons c t ih =>
    intro acc
    rw [splitDotGo]
    by_cases hc : c = '.'
    · subst hc
      rw [if_pos rfl]
      simp [ih, List.count_cons]
    · rw [if_neg hc]
      rw [ih]
      simp [List.count_cons, hc]

theorem splitDot_length (l : List Char) :
    (splitDot l).length = l.count '.' + 1 := splitDotGo_length l []

theorem natDigits_count_dot (n : Nat) : (natDigits n).count '.' = 0 := by
  rw [List.count_eq_zero]
  intro h
  exact natDigits_no_dot h rfl

theorem parseDateDMY_none_of_many_parts {s : List Char}
    (h : 4 ≤ (splitDot s).length) : parseDateDMY s = none := by
  unfold parseDateDMY
  rcases hsp : splitDot s with _ | ⟨a, _ | ⟨b, _ | ⟨c, _ | ⟨e, rest⟩⟩⟩⟩ <;>
    first
      | rfl
      | simp_all

theorem natDigits_length_le_three {n : Nat} (h : n ≤ 999) :
    (natDigits n).length ≤ 3 := by
  have hfuel : n < 10 ^ (n + 1) :=
    lt_of_lt_of_le (Nat.lt_pow_self (by norm_num) n)
      (Nat.pow_le_pow_right (by norm_num) (by omega))
  rcases (show n = 0 ∨ (1 ≤ n ∧ n ≤ 9) ∨ (10 ≤ n ∧ n ≤ 99) ∨
      (100 ≤ n ∧ n ≤ 999) from by omega) with h0 | h1 | h2 | h3
  · subst h0
    decide
  · have := natDigitsGo_length (n + 1) n 0 hfuel (by simpa using h1.1)
      (by norm_num; omega)
    unfold natDigits
    omega
  · have := natDigitsGo_length (n + 1) n 1 hfuel (by norm_num; omega)
      (by norm_num; omega)
    unfold natDigits
    omega
  · have := natDigitsGo_length (n + 1) n 2 hfuel (by norm_num; omega)
      (by norm_num; omega)
    unfold natDigits
    omega

/-- C10: year inference in the tournament-matrix table strategy.  When a
cell carries day and month without a year, the current (Moscow) year is
assumed first; if that date lies more than 30 days before today it is
re-resolved to the next year.  Consequently a date not more than 30 days
old stays in the current year (and, when today or earlier, is then
discarded by the future-game filter), while an older date is attributed
to the next year and always passes the future-game filter. -/
theorem C10_matrix_year_inference (cellText : String) (today : Date)
    (d m : String) (g0 : Date)
    (hcell : cellDayMonthYearOf cellText = some (d, m, none))
    (hy2 : today.y ≤ 9998)
    (hg0 : parseDateDMY (dmyString d m (String.mk (natDigits today.y))) = some g0) :
    (dateLt g0 (subDays today 30) = false →
      cellGameDateOf cellText today = some g0) ∧
    (dateLe g0 today = true → matrixKeep g0 today = false) ∧
    (dateLt g0 (subDays today 30) = true →
      cellGameDateOf cellText today =
        parseDateDMY (dmyString d m (String.mk (natDigits (today.y + 1)))) ∧
      ∀ g1, parseDateDMY (dmyString d m (String.mk (natDigits (today.y + 1)))) = some g1 →
        matrixKeep g1 today = true) := by
  have hstep : cellGameDateOf cellText today =
      (if dateLt g0 (subDays today 30) then
        parseDateDMY (dmyString d m (String.mk (natDigits (today.y + 1))))
      else some g0) := by
    unfold cellGameDateOf
    rw [hcell]
    simp only [hg0]
  -- day and month fields contain no dot: otherwise the current-year string
  -- would split into more than three parts and the parse would have failed
  have hdm0 : d.data.count '.' = 0 ∧ m.data.count '.' = 0 := by
    by_contra hcnt
    have h4 : 4 ≤ (splitDot (dmyString d m (String.mk (natDigits today.y)))).length := by
      rw [splitDot_length]
      unfold dmyString
      simp only [List.count_append, List.count_cons_self, natDigits_count_dot]
      omega
    rw [parseDateDMY_none_of_many_parts h4] at hg0
    exact absurd hg0 (by simp)
  have hdd : ∀ c ∈ d.data, c ≠ '.' := by
    intro c hc he
    subst he
    exact absurd hdm0.1 (by rw [List.count_eq_zero]; simp [hc])
  have hmd : ∀ c ∈ m.data, c ≠ '.' := by
    intro c hc he
    subst he
    exact absurd hdm0.2 (by rw [List.count_eq_zero]; simp [hc])
  -- extract the strptime field conditions from the successful parse
  have hparse0 := hg0
  rw [show dmyString d m (String.mk (natDigits today.y)) =
        d.data ++ '.' :: (m.data ++ '.' :: natDigits today.y) from by
      unfold dmyString; simp,
    parseDateDMY_parts _ _ _ hdd hmd (fun c hc => natDigits_no_dot hc)] at hparse0
  have hcond : (digits1or2 d.data && digits1or2 m.data &&
      ((natDigits today.y).length = 4 && allDigits (natDigits today.y))) = true := by
    by_contra hfalse
    rw [if_neg (by simpa using hfalse)] at hparse0
    exact absurd hparse0 (by simp)
  have hc1 := hcond
  rw [Bool.and_eq_true] at hc1
  have hc2 := hc1.2
  rw [Bool.and_eq_true] at hc2
  have hylen : (natDigits today.y).length = 4 := by simpa using hc2.1
  have hy1000 : 1000 ≤ today.y := by
    by_contra hlt
    have := natDigits_length_le_three (n := today.y) (by omega)
    omega
  refine ⟨?_, ?_, ?_⟩
  · intro hlt
    rw [hstep, if_neg (by rw [hlt]; exact Bool.false_ne_true)]
  · intro hle
    exact dateLe_lt_false hle
  · intro hlt
    refine ⟨by rw [hstep, if_pos hlt], ?_⟩
    intro g1 hg1
    rw [show dmyString d m (String.mk (natDigits (today.y + 1))) =
          d.data ++ '.' :: (m.data ++ '.' :: natDigits (today.y + 1)) from by
        unfold dmyString; simp,
      parseDateDMY_parts _ _ _ hdd hmd (fun c hc => natDigits_no_dot hc)] at hg1
    have hlen1 : (natDigits (today.y + 1)).length = 4 :=
      natDigits_length_four (by omega) (by omega)
    rw [if_pos] at hg1
    · have hy : g1.y = today.y + 1 := by
        unfold mkValidDate at hg1
        rw [natDigits_roundtrip] at hg1
        by_cases hv : 1 ≤ today.y + 1 ∧ today.y + 1 ≤ 9999 ∧
            1 ≤ digitsToNat m.data ∧ digitsToNat m.data ≤ 12 ∧
            1 ≤ digitsToNat d.data ∧
            digitsToNat d.data ≤ daysInMonth (today.y + 1) (digitsToNat m.data)
        · rw [if_pos hv] at hg1
          cases hg1
          rfl
        · rw [if_neg hv] at hg1
          exact absurd hg1 (by simp)
      unfold matrixKeep dateLt
      rw [decide_eq_true_eq]
      omega
    · rw [Bool.and_eq_true]
      refine ⟨hc1.1, ?_⟩
      rw [Bool.and_eq_true]
      exact ⟨by simpa using hlen1, allDigits_natDigits _⟩

/-! ## The future-date filter (C1) -/

theorem dateLe_false_lt {a b : Date} (h : dateLe a b = false) :
    dateLt b a = true := by
  cases a with | mk ay am ad =>
  cases b with | mk cy cm cd =>
  unfold dateLe dateLt at *
  simp only [decide_eq_false_iff_not, decide_eq_true_eq, not_or, Date.mk.injEq] at h
  simp only [decide_eq_true_eq]
  obtain ⟨h1, h2⟩ := h
  push_neg at h1 h2
  by_cases hy : ay = cy
  · subst hy
    by_cases hm : am = cm
    · subst hm
      have hd := h1 rfl rfl
      omega
    · omega
  · omega

/-- Inversion of the date stage: a successful stage starts from the
first date match and yields a parsed date that is strictly in the
future. -/
theorem dateStageOf_some {text : String} {today : Date} {m : MRes} {ds : String}
    {dd : Date} (h : dateStageOf text today = some (m, ds, dd)) :
    (dateMatchesOf text).head? = some m ∧ ds = dateStrOfM text m ∧
      parseDateDMY ds.data = some dd ∧ dateLe dd today = false := by
  unfold dateStageOf at h
  rcases hm0 : (dateMatchesOf text).head? with _ | m0
  · rw [hm0] at h
    simp at h
  · rw [hm0] at h
    rcases hp : parseDateDMY (dateStrOfM text m0).data with _ | d0
    · simp [hp] at h
    · simp only [hp] at h
      by_cases hle : dateLe d0 today = true
      · rw [if_pos hle] at h
        simp at h
      · rw [if_neg hle] at h
        have h3 : m0 = m ∧ dateStrOfM text m0 = ds ∧ d0 = dd := by
          injection h with h4
          exact ⟨congrArg (fun x => x.1) h4,
            congrArg (fun x => x.2.1) h4, congrArg (fun x => x.2.2) h4⟩
        obtain ⟨rfl, h5, rfl⟩ := h3
        rw [← h5]
        exact ⟨rfl, rfl, hp, Bool.not_eq_true _ ▸ hle⟩

/-- C1: every record produced by an extraction strategy carries a date
strictly after "now" — the schedule-row parser, the anchor-link filter,
the linked-page extraction and the calendar free-text strategy each
enforce the future-date filter themselves. -/
theorem C1_future_date_filter_all_strategies :
    (∀ (text team : String) (today : Date) (g : GameInfo),
      extractGameInfoFromScheduleRow text team today = some g →
      ∃ dd, parseDateDMY g.date.data = some dd ∧ dateLt today dd = true) ∧
    (∀ (gi g : GameInfo4) (today : Date),
      anchorLinkFilter gi today = some g →
      ∃ dd, parseDateDMY g.date.data = some dd ∧ dateLt today dd = true) ∧
    (∀ (text team : String) (today : Date) (g : GameInfo4),
      extractGameInfoFromPageText text team today = some g →
      ∃ dd, parseDateDMY g.date.data = some dd ∧ dateLt today dd = true) ∧
    (∀ (dateStr t1 t2 : String) (variants : List String) (teamName url : String)
      (today : Date) (g : CalGame),
      calendarRecordOfMatch dateStr t1 t2 variants teamName url today = some g →
      ∃ dd, parseDateDMY g.date.data = some dd ∧ dateLt today dd = true) := by
  refine ⟨?_, ?_, ?_, ?_⟩
  · intro text team today g hg
    unfold extractGameInfoFromScheduleRow at hg
    rcases hds : dateStageOf text today with _ | ⟨m, ds, dd⟩
    · rw [hds] at hg
      simp at hg
    · rw [hds] at hg
      rcases hop : opponentFinalOf text team with _ | opp
      · simp [hop] at hg
      · simp only [hop, Option.some.injEq] at hg
        obtain ⟨_, _, hparse, hle⟩ := dateStageOf_some hds
        refine ⟨dd, ?_, dateLe_false_lt hle⟩
        rw [← hg]
        exact hparse
  · intro gi g today hg
    unfold anchorLinkFilter at hg
    rcases hp : parseDateDMY gi.date.data with _ | d0
    · rw [hp] at hg
      simp at hg
    · simp only [hp] at hg
      by_cases hle : dateLe d0 today = true
      · rw [if_pos hle] at hg
        simp at hg
      · rw [if_neg hle] at hg
        simp only [Option.some.injEq] at hg
        subst hg
        exact ⟨d0, hp, dateLe_false_lt (Bool.not_eq_true _ ▸ hle)⟩
  · intro text team today g hg
    unfold extractGameInfoFromPageText at hg
    rcases hm0 : (dateMatchesOf text).head? with _ | m0
    · rw [hm0] at hg
      simp at hg
    · rw [hm0] at hg
      rcases hp : parseDateDMY (dateStrOfM text m0).data with _ | d0
      · simp [hp] at hg
      · simp only [hp] at hg
        by_cases hle : dateLe d0 today = true
        · rw [if_pos hle] at hg
          simp at hg
        · rw [if_neg hle] at hg
          simp only [Option.some.injEq] at hg
          refine ⟨d0, ?_, dateLe_false_lt (Bool.not_eq_true _ ▸ hle)⟩
          rw [← hg]
          exact hp
  · intro dateStr t1 t2 variants teamName url today g hg
    unfold calendarRecordOfMatch at hg
    by_cases hmem : (variantMatches
        (normalizeNameForSearch (String.mk (stripL t1.data))) variants = true ∨
      variantMatches
        (normalizeNameForSearch (String.mk (stripL t2.data))) variants = true)
    · rw [if_pos hmem] at hg
      rcases hp : parseDateDMY dateStr.data with _ | d0
      · simp [hp] at hg
      · simp only [hp] at hg
        by_cases hlt : dateLt today d0 = true
        · rw [if_pos hlt] at hg
          simp only [Option.some.injEq] at hg
          refine ⟨d0, ?_, hlt⟩
          rw [← hg]
          exact hp
        · rw [if_neg hlt] at hg
          simp at hg
    · rw [if_neg hmem] at hg
      simp at hg

/-- C1 witness: the four strategy-level filters applied at concrete
inputs, each yielding a strictly future date. -/
theorem C1_future_date_filter_all_strategies_witness :
    (∃ dd, parseDateDMY "15.07.2030".data = some dd ∧
       dateLt ⟨2026, 1, 1⟩ dd = true) ∧
    (∃ dd, parseDateDMY "16.07.2030".data = some dd ∧
       dateLt ⟨2026, 1, 1⟩ dd = true) ∧
    (∃ dd, parseDateDMY "17.07.2030".data = some dd ∧
       dateLt ⟨2026, 1, 1⟩ dd = true) ∧
    (∃ dd, parseDateDMY "10.10.2030".data = some dd ∧
       dateLt ⟨2026, 1, 1⟩ dd = true) :=
  ⟨C1_future_date_filter_all_strategies.1 "Вымпел - Зенит 15.07.2030" "Вымпел"
      ⟨2026, 1, 1⟩ ⟨"15.07.2030", "20:00", "Зенит", "Не указано", "", some "Вымпел", some "Зенит"⟩ (by decide),
   C1_future_date_filter_all_strategies.2.1
      ⟨"16.07.2030", "20:00", "X", ""⟩ ⟨"16.07.2030", "20:00", "X", ""⟩
      ⟨2026, 1, 1⟩ (by decide),
   C1_future_date_filter_all_strategies.2.2.1 "Вымпел - Зенит 17.07.2030" "Вымпел"
      ⟨2026, 1, 1⟩ ⟨"17.07.2030", "20:00", "Зенит 17.07.2030", ""⟩ (by decide),
   C1_future_date_filter_all_strategies.2.2.2 "10.10.2030" "Вымпел " " Зенит"
      (buildNameVariants "Вымпел") "Вымпел" "u" ⟨2026, 1, 1⟩
      ⟨"10.10.2030", "20:00", "Зенит", "Не указано", "Вымпел", "u"⟩ (by decide)⟩

/-! ## Totality and the None-conditions of the parser (C9) -/

/-- C9 (amended): the schedule-row parser is a total function (it cannot
raise), and it returns `none` exactly when the date stage fails — no
date pattern, a date string rejected by `strptime`, or a date that is
today or earlier — or the opponent stage fails: no candidate survives
the cleanup, the candidate is empty or shorter than two characters, it
equals a known stop-word, or it exceeds 50 characters after the suffix
cleanup.  Otherwise a populated record is returned. -/
theorem C9_parser_none_conditions :
    (∀ (text team : String) (today : Date),
      extractGameInfoFromScheduleRow text team today = none ↔
        (dateStageOf text today = none ∨ opponentFinalOf text team = none)) ∧
    (∀ (text : String) (today : Date),
      dateStageOf text today = none ↔
        ((dateMatchesOf text).head? = none ∨
         ∃ m, (dateMatchesOf text).head? = some m ∧
           (parseDateDMY (dateStrOfM text m).data = none ∨
            ∃ d, parseDateDMY (dateStrOfM text m).data = some d ∧
              dateLe d today = true))) ∧
    (∀ (text team : String),
      opponentFinalOf text team = none ↔
        (opponentCandidateOf text team = none ∨
         ∃ o, opponentCandidateOf text team = some o ∧
           (o = "" ∨ o.length < 2 ∨
            opponentStopWords.contains (lowerL o.data) = true ∨
            50 < (opponentSuffixCleaned o).length))) := by
  refine ⟨?_, ?_, ?_⟩
  · intro text team today
    unfold extractGameInfoFromScheduleRow
    rcases hds : dateStageOf text today with _ | ⟨m, ds, dd⟩
    · simp
    · rcases hop : opponentFinalOf text team with _ | opp
      · simp [hop]
      · simp [hop]
  · intro text today
    unfold dateStageOf
    rcases hm0 : (dateMatchesOf text).head? with _ | m0
    · simp
    · rcases hp : parseDateDMY (dateStrOfM text m0).data with _ | d0
      · simp [hp]
      · by_cases hle : dateLe d0 today = true
        · simp [hp, hle]
        · simp [hp, hle]
  · intro text team
    unfold opponentFinalOf
    rcases hoc : opponentCandidateOf text team with _ | o
    · simp
    · by_cases h1 : o = "" ∨ o.length < 2
      · simp only [if_pos h1]
        rcases h1 with h1 | h1 <;> simp [h1]
      · obtain ⟨h1a, h1b⟩ := not_or.mp h1
        simp only [if_neg h1]
        by_cases h2 : opponentStopWords.contains (lowerL o.data) = true
        · have h2m : lowerL o.data ∈ opponentStopWords := by simpa using h2
          simp [h2, h2m, h1a, h1b]
        · have h2m : lowerL o.data ∉ opponentStopWords := by simpa using h2
          by_cases h3 : 50 < (opponentSuffixCleaned o).length
          · simp [h2, h2m, h3, h1a, h1b]
          · simp [h2, h2m, h3, h1a, h1b]

/-- C9 counterexample: the claim as stated is false — for a fragment
with a past date the parser returns `None` although a date pattern is
present, a significant opponent candidate (`"Зенит"`) survives the
cleanup, it is not a stop-word and it is well under 50 characters. -/
theorem C9_counterexample_past_date_none :
    extractGameInfoFromScheduleRow "Вымпел - Зенит 01.01.2020" "Вымпел"
        ⟨2026, 1, 1⟩ = none ∧
    ((dateMatchesOf "Вымпел - Зенит 01.01.2020").head?).isSome = true ∧
    opponentFinalOf "Вымпел - Зенит 01.01.2020" "Вымпел" = some "Зенит" ∧
    opponentStopWords.contains (lowerL "Зенит".data) = false ∧
    "Зенит".length ≤ 50 :=
  ⟨by decide, by decide, by decide, by decide, by decide⟩

/-! ## Time extraction (C4) -/

/-- The time rule exactly as the claim words it, but over the whole text
after the date's end (no 100-character window): the first `H:MM`/`H.MM`
pattern with hour in `[8,23]` and minute in `[0,59]`, formatted `HH:MM`,
else the default `20:00`. -/
def timeSpecClaim (text : String) : String :=
  match (dateMatchesOf text).head? with
  | none => "20:00"
  | some m =>
    let win := text.data.drop m.me
    match (findAll timePat win).findSome? (validTime win) with
    | none => "20:00"
    | some (h, mi) => String.mk (pad2 h ++ ':' :: pad2 mi)

/-- The amended time rule: as `timeSpecClaim`, but restricted to the
first 100 characters after the date's end. -/
def timeSpecWindow (text : String) : String :=
  match (dateMatchesOf text).head? with
  | none => "20:00"
  | some m =>
    let win := (text.data.drop m.me).take 100
    match (findAll timePat win).findSome? (validTime win) with
    | none => "20:00"
    | some (h, mi) => String.mk (pad2 h ++ ':' :: pad2 mi)

/-- C4 (amended): the time of every record produced by
`_extract_game_info_from_schedule_row` is the first valid time pattern
within the first 100 characters after the matched date's end (hour in
`[8,23]`, minute in `[0,59]`, formatted `HH:MM`), defaulting to `20:00`
when no such pattern exists in that window. -/
theorem C4_time_first_valid_in_window (text team : String) (today : Date)
    (g : GameInfo) (hg : extractGameInfoFromScheduleRow text team today = some g) :
    g.time = timeSpecWindow text := by
  unfold extractGameInfoFromScheduleRow at hg
  rcases hds : dateStageOf text today with _ | ⟨m, ds, dd⟩
  · rw [hds] at hg
    simp at hg
  · rw [hds] at hg
    rcases hop : opponentFinalOf text team with _ | opp
    · simp [hop] at hg
    · simp only [hop, Option.some.injEq] at hg
      obtain ⟨hhead, _, _, _⟩ := dateStageOf_some hds
      rw [← hg]
      show timeStrOfM text m = timeSpecWindow text
      unfold timeSpecWindow timeStrOfM timeStrOfWindow
      rw [hhead]
      rcases hsc : (findAll timePat ((text.data.drop m.me).take 100)).findSome?
          (validTime ((text.data.drop m.me).take 100)) with _ | ⟨h, mi⟩ <;>
        simp [hsc]

/-- C4 witness: a fragment with a valid time inside the window yields
that time, matching the amended rule at a concrete input. -/
theorem C4_time_first_valid_in_window_witness :
    GameInfo.time ⟨"15.07.2025", "19:30", "Zenit", "Не указано", "", some "Vintage", some "Zenit"⟩ =
      timeSpecWindow "Vintage - Zenit 15.07.2025 19:30" :=
  C4_time_first_valid_in_window "Vintage - Zenit 15.07.2025 19:30" "Vintage"
    ⟨2025, 7, 1⟩
    ⟨"15.07.2025", "19:30", "Zenit", "Не указано", "", some "Vintage", some "Zenit"⟩
    (by decide)

set_option maxHeartbeats 4000000 in
/-- C4 counterexample: the claim as stated (no window) is false — with a
valid time `19:30` occurring 100 characters after the date's end, the
parser still returns the default `20:00`, while the claim's unwindowed
rule demands `19:30`. -/
theorem C4_counterexample_time_beyond_window :
    (extractGameInfoFromScheduleRow
        ("Vintage - Zenit 15.07.2030" ++ String.mk (List.replicate 100 '.') ++ "19:30")
        "Vintage" ⟨2026, 1, 1⟩).map GameInfo.time = some "20:00" ∧
    timeSpecClaim
        ("Vintage - Zenit 15.07.2030" ++ String.mk (List.replicate 100 '.') ++ "19:30") =
      "19:30" := by
  constructor
  · decide
  · decide

/-! ## Role assignment (C5) -/

/-- Home/away role of the target team. -/
inductive Role where
  | home
  | away
deriving DecidableEq, Repr

/-- Role determination as the claim words it: split the fragment by each
game separator in order; a variant matching the first segment means
home, one matching the second means away; otherwise no role is
determined. -/
def roleSpecGo (text : String) (variants : List String) : List Rx → Option Role
  | [] => none
  | sep :: rest =>
    let parts := splitRxL sep text.data
    if parts.length ≥ 2 then
      if variantMatches (normalizeNameForSearch (String.mk (parts.headD []))) variants
      then some Role.home
      else if variantMatches
          (normalizeNameForSearch (String.mk ((parts.drop 1).headD []))) variants
      then some Role.away
      else roleSpecGo text variants rest
    else roleSpecGo text variants rest

def roleOfSpec (text team : String) : Option Role :=
  roleSpecGo text (buildNameVariants team) gameSeparators

def roleToPos : Role → Nat
  | .home => 1
  | .away => 2

/-- The `team1`/`team2` fields dictated by the claim: home puts the team
first, away puts the opponent first, an undetermined role leaves both
unset. -/
def roleTeamsSpec (text team opp : String) : Option String × Option String :=
  match roleOfSpec text team with
  | some Role.home => (some team, some opp)
  | some Role.away => (some opp, some team)
  | none => (none, none)

theorem teamPositionGo_eq_roleSpecGo (text : String) (variants : List String) :
    ∀ seps, teamPositionGo text variants seps =
      (roleSpecGo text variants seps).map roleToPos := by
  intro seps
  induction seps with
  | nil => rfl
  | cons sep rest ih =>
    unfold teamPositionGo roleSpecGo
    by_cases h2 : (splitRxL sep text.data).length ≥ 2
    · rw [if_pos h2, if_pos h2]
      cases hm1 : variantMatches
          (normalizeNameForSearch
            (String.mk ((splitRxL sep text.data).headD []))) variants
      · cases hm2 : variantMatches
            (normalizeNameForSearch
              (String.mk (((splitRxL sep text.data).drop 1).headD []))) variants
        · simpa using ih
        · simp [roleToPos]
      · simp [roleToPos]
    · rw [if_neg h2, if_neg h2]
      exact ih

/-- C5: the parser's `team1`/`team2` fields follow the claim's role
rule — a variant matching the first split segment yields home (team
first), one matching the second yields away (opponent first), and an
undetermined role leaves the positions unset, in which case poll
creation defaults to home (our team first). -/
theorem C5_role_assignment_home_away :
    (∀ (text team : String) (today : Date) (g : GameInfo),
      extractGameInfoFromScheduleRow text team today = some g →
      (g.team1, g.team2) = roleTeamsSpec text team g.opponent) ∧
    (∀ (teamName opponentClean : String),
      pollTeams none none teamName opponentClean = (teamName, opponentClean)) := by
  constructor
  · intro text team today g hg
    unfold extractGameInfoFromScheduleRow at hg
    rcases hds : dateStageOf text today with _ | ⟨m, ds, dd⟩
    · rw [hds] at hg
      simp at hg
    · rw [hds] at hg
      rcases hop : opponentFinalOf text team with _ | opp
      · simp [hop] at hg
      · simp only [hop, Option.some.injEq] at hg
        rw [← hg]
        show (_, _) = roleTeamsSpec text team opp
        unfold roleTeamsSpec roleOfSpec
        have hpos : teamPositionOf text team =
            (roleSpecGo text (buildNameVariants team) gameSeparators).map roleToPos :=
          teamPositionGo_eq_roleSpecGo text (buildNameVariants team) gameSeparators
        rcases hrole : roleSpecGo text (buildNameVariants team) gameSeparators with
          _ | r
        · rw [hrole] at hpos
          simp [hpos]
        · rw [hrole] at hpos
          cases r <;> simp [hpos, roleToPos]
  · intro teamName opponentClean
    rfl

/-- C5 witness: the two fragments of the claim — the same fragment
parsed for `"Vintage"` yields home with opponent `"Zenit"`, parsed for
`"Zenit"` yields away with opponent `"Vintage"`; an undetermined role
defaults to home at poll creation. -/
theorem C5_role_assignment_home_away_witness :
    ((some "Vintage", some "Zenit") =
      roleTeamsSpec "Vintage - Zenit 15.07.2025 19:30" "Vintage" "Zenit") ∧
    ((some "Vintage", some "Zenit") =
      roleTeamsSpec "Vintage - Zenit 15.07.2025 19:30" "Zenit" "Vintage") ∧
    pollTeams none none "Вымпел" "Зенит" = ("Вымпел", "Зенит") :=
  ⟨C5_role_assignment_home_away.1 "Vintage - Zenit 15.07.2025 19:30" "Vintage"
      ⟨2025, 7, 1⟩
      ⟨"15.07.2025", "19:30", "Zenit", "Не указано", "", some "Vintage", some "Zenit"⟩
      (by decide),
   C5_role_assignment_home_away.1 "Vintage - Zenit 15.07.2025 19:30" "Zenit"
      ⟨2025, 7, 1⟩
      ⟨"15.07.2025", "19:30", "Vintage", "Не указано", "", some "Vintage", some "Zenit"⟩
      (by decide),
   C5_role_assignment_home_away.2 "Вымпел" "Зенит"⟩

/-! ## The venue sentinel (C2) -/

/-- C2 (amended): records produced by `_extract_game_info_from_schedule_row`
always carry a non-empty venue (the sentinel `"Не указано"` when none was
parsed), records of the calendar free-text strategy always carry the
sentinel itself, and at poll creation the formatted venue is again
non-empty.  (The anchor-link paths return an empty venue, see the
counterexample, so the invariant holds per-path, not globally.) -/
theorem C2_venue_sentinel_amended :
    (∀ (text team : String) (today : Date) (g : GameInfo),
      extractGameInfoFromScheduleRow text team today = some g → g.venue ≠ "") ∧
    (∀ (dateStr t1 t2 : String) (variants : List String) (teamName url : String)
      (today : Date) (g : CalGame),
      calendarRecordOfMatch dateStr t1 t2 variants teamName url today = some g →
      g.venue = "Не указано") ∧
    (∀ v : String, pollVenue v ≠ "") := by
  refine ⟨?_, ?_, ?_⟩
  · intro text team today g hg
    unfold extractGameInfoFromScheduleRow at hg
    rcases hds : dateStageOf text today with _ | ⟨m, ds, dd⟩
    · rw [hds] at hg
      simp at hg
    · rw [hds] at hg
      rcases hop : opponentFinalOf text team with _ | opp
      · simp [hop] at hg
      · simp only [hop, Option.some.injEq] at hg
        rw [← hg]
        by_cases hv : venueNormOf (venueRawOf text) = ""
        · simp only [hv, if_pos]
          decide
        · simp only [if_neg hv]
          exact hv
  · intro dateStr t1 t2 variants teamName url today g hg
    unfold calendarRecordOfMatch at hg
    by_cases hmem : (variantMatches
        (normalizeNameForSearch (String.mk (stripL t1.data))) variants = true ∨
      variantMatches
        (normalizeNameForSearch (String.mk (stripL t2.data))) variants = true)
    · rw [if_pos hmem] at hg
      rcases hp : parseDateDMY dateStr.data with _ | d0
      · simp [hp] at hg
      · simp only [hp] at hg
        by_cases hlt : dateLt today d0 = true
        · rw [if_pos hlt] at hg
          simp only [Option.some.injEq] at hg
          rw [← hg]
        · rw [if_neg hlt] at hg
          simp at hg
    · rw [if_neg hmem] at hg
      simp at hg
  · intro v
    unfold pollVenue
    by_cases hv : String.mk (stripL v.data) = ""
    · rw [if_pos hv]
      decide
    · rw [if_neg hv]
      exact hv

/-- C2 witness: the amended invariant applied at concrete inputs — a
schedule row without a parseable venue gets the sentinel, a calendar
record carries the sentinel, and the empty poll venue is replaced by the
sentinel. -/
theorem C2_venue_sentinel_amended_witness :
    GameInfo.venue ⟨"15.07.2030", "20:00", "Зенит", "Не указано", "", some "Вымпел", some "Зенит"⟩ ≠ "" ∧
    CalGame.venue ⟨"10.10.2030", "20:00", "Зенит", "Не указано", "Вымпел", "u"⟩ = "Не указано" ∧
    pollVenue "  " ≠ "" :=
  ⟨C2_venue_sentinel_amended.1 "Вымпел - Зенит 15.07.2030" "Вымпел" ⟨2026, 1, 1⟩
      ⟨"15.07.2030", "20:00", "Зенит", "Не указано", "", some "Вымпел", some "Зенит"⟩ (by decide),
   C2_venue_sentinel_amended.2.1 "10.10.2030" "Вымпел " " Зенит"
      (buildNameVariants "Вымпел") "Вымпел" "u" ⟨2026, 1, 1⟩
      ⟨"10.10.2030", "20:00", "Зенит", "Не указано", "Вымпел", "u"⟩ (by decide),
   C2_venue_sentinel_amended.2.2 "  "⟩

/-- C2 counterexample: the claim as stated is false — the anchor-link
path `_extract_game_info_from_text` yields a record whose venue is the
empty string, not the sentinel. -/
theorem C2_counterexample_empty_venue_from_text :
    extractGameInfoFromText "Спартак 15.07.2030" "Вымпел" =
      some ⟨"15.07.2030", "20:00", "Спартак", ""⟩ ∧
    GameInfo4.venue ⟨"15.07.2030", "20:00", "Спартак", ""⟩ = "" := by
  constructor
  · decide
  · rfl

/-- C10 witness: for today `2025-12-20`, the cell `"22.11 д"` (within the
last 30 days) resolves to `2025-11-22` and is discarded by the future
filter, while `"15.01"` (more than 30 days old) resolves to the next
year and passes the future filter. -/
theorem C10_matrix_year_inference_witness :
    (cellGameDateOf "22.11 д" ⟨2025, 12, 20⟩ = some ⟨2025, 11, 22⟩ ∧
     matrixKeep ⟨2025, 11, 22⟩ ⟨2025, 12, 20⟩ = false) ∧
    (cellGameDateOf "15.01" ⟨2025, 12, 20⟩ =
       parseDateDMY (dmyString "15" "01" (String.mk (natDigits 2026))) ∧
     matrixKeep ⟨2026, 1, 15⟩ ⟨2025, 12, 20⟩ = true) :=
  ⟨⟨(C10_matrix_year_inference "22.11 д" ⟨2025, 12, 20⟩ "22" "11" ⟨2025, 11, 22⟩
        (by decide) (by decide) (by decide)).1 (by decide),
    (C10_matrix_year_inference "22.11 д" ⟨2025, 12, 20⟩ "22" "11" ⟨2025, 11, 22⟩
        (by decide) (by decide) (by decide)).2.1 (by decide)⟩,
   ⟨((C10_matrix_year_inference "15.01" ⟨2025, 12, 20⟩ "15" "01" ⟨2025, 1, 15⟩
        (by decide) (by decide) (by decide)).2.2 (by decide)).1,
    ((C10_matrix_year_inference "15.01" ⟨2025, 12, 20⟩ "15" "01" ⟨2025, 1, 15⟩
        (by decide) (by decide) (by decide)).2.2 (by decide)).2
      ⟨2026, 1, 15⟩ (by decide)⟩⟩

/-- C8 witness: the merged-field precedence applied at a concrete pair
(site values all non-empty take precedence). -/
theorem C8_reconciliation_greedy_site_priority_witness :
    processBothGo
        [{ date := some "10.10.2025", time := none, opponent := some "Zenit-2",
           venue := none, team_name := none, team_a := none, team_b := none,
           team2 := none }].enum []
        [{ date := some "10.10.2025", time := none, opponent := some "Zenit",
           venue := none, team_name := none, team_a := none, team_b := none,
           team2 := none }] =
      reconcileSpec
        [{ date := some "10.10.2025", time := none, opponent := some "Zenit-2",
           venue := none, team_name := none, team_a := none, team_b := none,
           team2 := none }]
        [{ date := some "10.10.2025", time := none, opponent := some "Zenit",
           venue := none, team_name := none, team_a := none, team_b := none,
           team2 := none }] ∧
    (mergeGames
        { date := some "10.10.2025", time := none, opponent := some "Zenit-2",
          venue := none, team_name := none, team_a := none, team_b := none,
          team2 := none }
        { date := some "10.10.2025", time := none, opponent := some "Zenit",
          venue := none, team_name := none, team_a := none, team_b := none,
          team2 := none }).opponent = some "Zenit" :=
  ⟨C8_reconciliation_greedy_site_priority.1 _ _,
   (C8_reconciliation_greedy_site_priority.2.1 _ _).2.2.2.1 (by decide)⟩

end FlashBot
